import Mathlib

/-!
# Verification of the Sentinel SOC threat-assessment pipeline

A shallow embedding of the core pipeline of the `cf_ai_sentinel_soc_agent`
repository: the SQLi agent's normalizer and heuristic scorer
(`src/agents/SQLiAgent.ts`), its AI-verification arbiter, the security
assessment validator (`src/types.ts`), the Sentinel workflow and its
escalation / mitigation side effects (`src/memory.ts`), the HTTP analyze
handler with its SHA-256 cache fingerprint (`src/index.ts`), and the
cursor-paginated expiry sweep (`src/index.ts`, `scheduled`).

Strings are modelled as lists of characters (`String.data`); JavaScript
regex replacements are embedded as direct character-list transformations,
each annotated with the regex it implements.  JavaScript numbers carrying
risk scores are modelled as `Int` (all scores in the code are integral).
-/

namespace Sentinel

/-! ## JavaScript character classes -/

/-- The character class `\s` of JavaScript regular expressions (also the set
trimmed by `String.prototype.trim`): tab, LF, VT, FF, CR, space, NBSP, and
the Unicode space separators, line/paragraph separators and BOM. -/
def jsWhitespace (c : Char) : Bool :=
  let n := c.toNat
  n == 9 || n == 10 || n == 11 || n == 12 || n == 13 || n == 32 ||
  n == 0xa0 || n == 0x1680 || (0x2000 ≤ n && n ≤ 0x200a) ||
  n == 0x2028 || n == 0x2029 || n == 0x202f || n == 0x205f || n == 0x3000 ||
  n == 0xfeff

/-- ASCII lower-casing, the action of `String.prototype.toLowerCase` on the
ASCII range (the payloads of interest are ASCII). -/
def jsToLower (c : Char) : Char :=
  if 65 ≤ c.toNat && c.toNat ≤ 90 then Char.ofNat (c.toNat + 32) else c

/-- `[0-9]`, the regex class `\d`. -/
def isDigitCh (c : Char) : Bool := '0' ≤ c && c ≤ '9'

/-- `[A-Za-z0-9_]`, the regex class `\w` (used for `\b` word boundaries). -/
def isWordCh (c : Char) : Bool :=
  ('a' ≤ c && c ≤ 'z') || ('A' ≤ c && c ≤ 'Z') || isDigitCh c || c == '_'

/-! ## Percent decoding (`decodeURIComponent`)

`SQLiAgent.normalize` step 1 applies `decodeURIComponent` repeatedly until a
fixed point, breaking out of the loop when decoding throws `URIError`. -/

/-- Value of a hex digit, `none` if the character is not a hex digit. -/
def hexDigit (c : Char) : Option Nat :=
  let n := c.toNat
  if 48 ≤ n ∧ n ≤ 57 then some (n - 48)
  else if 97 ≤ n ∧ n ≤ 102 then some (n - 87)
  else if 65 ≤ n ∧ n ≤ 70 then some (n - 55)
  else none

/-- Read one `%HH` escape from the head of the input, returning the byte and
the rest.  `none` models the `URIError` for a malformed escape. -/
def pctByte : List Char → Option (Nat × List Char)
  | '%' :: h1 :: h2 :: rest =>
    match hexDigit h1, hexDigit h2 with
    | some a, some b => some (16 * a + b, rest)
    | _, _ => none
  | _ => none

/-- Read one further `%HH` escape and require its byte to lie in `[lo, hi]`
(continuation-byte validation). -/
def contByte (lo hi : Nat) (cs : List Char) : Option (Nat × List Char) :=
  match pctByte cs with
  | some (b, rest) => if lo ≤ b && b ≤ hi then some (b, rest) else none
  | none => none

/-- Read a sequence of percent-encoded continuation bytes, each constrained
to the given `[lo, hi]` range. -/
def readConts : List (Nat × Nat) → List Char → Option (List Nat × List Char)
  | [], cs => some ([], cs)
  | (lo, hi) :: specs, cs =>
    match contByte lo hi cs with
    | some (b, r) =>
      match readConts specs r with
      | some (bs, r2) => some (b :: bs, r2)
      | none => none
    | none => none

/-- The ranges of the continuation bytes demanded by a UTF-8 lead byte, per
the table used by `decodeURIComponent`'s UTF-8 validation (overlong forms,
surrogates and code points above U+10FFFF rejected). `none` marks an invalid
lead byte. -/
def contSpecs (b0 : Nat) : Option (List (Nat × Nat)) :=
  if b0 < 0x80 then some []
  else if 0xc2 ≤ b0 && b0 ≤ 0xdf then some [(0x80, 0xbf)]
  else if b0 == 0xe0 then some [(0xa0, 0xbf), (0x80, 0xbf)]
  else if b0 == 0xed then some [(0x80, 0x9f), (0x80, 0xbf)]
  else if (0xe1 ≤ b0 && b0 ≤ 0xec) || b0 == 0xee || b0 == 0xef then
    some [(0x80, 0xbf), (0x80, 0xbf)]
  else if b0 == 0xf0 then some [(0x90, 0xbf), (0x80, 0xbf), (0x80, 0xbf)]
  else if 0xf1 ≤ b0 && b0 ≤ 0xf3 then some [(0x80, 0xbf), (0x80, 0xbf), (0x80, 0xbf)]
  else if b0 == 0xf4 then some [(0x80, 0x8f), (0x80, 0xbf), (0x80, 0xbf)]
  else none

/-- Assemble a code point from a lead byte and its continuation bytes. -/
def utf8Assemble (b0 : Nat) (bs : List Nat) : Nat :=
  let lead :=
    match bs.length with
    | 0 => b0
    | 1 => b0 - 0xc0
    | 2 => b0 - 0xe0
    | _ => b0 - 0xf0
  bs.foldl (fun acc b => acc * 64 + (b - 0x80)) lead

/-- Given a UTF-8 lead byte `b0` (already consumed), read the remaining
percent-encoded continuation bytes and return the decoded code point. -/
def utf8Rest (b0 : Nat) (cs : List Char) : Option (Nat × List Char) :=
  match contSpecs b0 with
  | none => none
  | some specs =>
    match readConts specs cs with
    | none => none
    | some (bs, r) => some (utf8Assemble b0 bs, r)

/-- Read one complete percent-encoded UTF-8 cluster starting at a `%` sign,
returning the decoded character and the rest of the input. -/
def pctCluster (cs : List Char) : Option (Char × List Char) :=
  match pctByte cs with
  | some (b0, r1) =>
    match utf8Rest b0 r1 with
    | some (cp, r2) => some (Char.ofNat cp, r2)
    | none => none
  | none => none

/-- One pass of `decodeURIComponent`, fuelled for structural recursion:
decode every percent-escape cluster, pass every other character through;
`none` models a thrown `URIError`.  Every step consumes at least one input
character (a cluster consumes at least three), so fuel equal to the input
length always suffices; the out-of-fuel case, unreachable through
`decodeURIOnce`, returns the input unchanged. -/
def decodeOnceGo : Nat → List Char → Option (List Char)
  | _, [] => some []
  | 0, s => some s
  | fuel + 1, c :: cs =>
    if c = '%' then
      match pctCluster (c :: cs) with
      | some (d, rest) => (decodeOnceGo fuel rest).map (d :: ·)
      | none => none
    else (decodeOnceGo fuel cs).map (c :: ·)

/-- One pass of `decodeURIComponent`. -/
def decodeURIOnce (s : List Char) : Option (List Char) := decodeOnceGo s.length s

/-- The fixed-point decoding loop of `normalize` step 1:
`while (normalized !== previous) { try { decode } catch { break } }`.
Each successful decode that changes the string strictly shortens it (a
`%HH` cluster of ≥ 3 characters becomes one character), so `length + 1`
rounds of fuel always reach the fixed point. -/
def decodeLoop : Nat → List Char → List Char
  | 0, s => s
  | fuel + 1, s =>
    match decodeURIOnce s with
    | none => s
    | some t => if t = s then s else decodeLoop fuel t

/-- Recursive URL decoding to a fixed point (`normalize` step 1). -/
def decodeFix (s : List Char) : List Char := decodeLoop (s.length + 1) s

/-! ## The remaining normalization passes

`SQLiAgent.normalize` steps 2–7: lower-casing, whitespace collapsing,
comment stripping, null-byte removal, re-collapsing, trimming. -/

/-- The `\s+` to `" "` replacement (flag `g`), written with an
`inRun` state so the recursion is structural: collapse every maximal
whitespace run to a single space, emitted at the run's first character. -/
def collapseWsGo : Bool → List Char → List Char
  | _, [] => []
  | inRun, c :: cs =>
    if jsWhitespace c then
      if inRun then collapseWsGo true cs else ' ' :: collapseWsGo true cs
    else c :: collapseWsGo false cs

/-- `replace` of `\s+` by a single space. -/
def collapseWs (s : List Char) : List Char := collapseWsGo false s

/-- The `--.*$` replacement (flags `gm`, empty replacement), written with a
`dropping` state so the recursion is structural: in each line, remove
everything from the first `--` to the end of the line (`.` does not match
the line terminator, which is kept). -/
def stripDashGo : Bool → List Char → List Char
  | _, [] => []
  | true, c :: cs => if c = '\n' then '\n' :: stripDashGo false cs else stripDashGo true cs
  | false, c :: cs =>
    if c = '-' ∧ cs.head? = some '-' then stripDashGo true cs
    else c :: stripDashGo false cs

/-- `replace` of `--.*$` (flags `gm`) by the empty string. -/
def stripDashComments (s : List Char) : List Char := stripDashGo false s

/-- The `#.*$` replacement (flags `gm`, empty replacement), with the same
`dropping` state. -/
def stripHashGo : Bool → List Char → List Char
  | _, [] => []
  | true, c :: cs => if c = '\n' then '\n' :: stripHashGo false cs else stripHashGo true cs
  | false, c :: cs =>
    if c = '#' then stripHashGo true cs
    else c :: stripHashGo false cs

/-- `replace` of `#.*$` (flags `gm`) by the empty string. -/
def stripHashComments (s : List Char) : List Char := stripHashGo false s

/-- Skip to just after the first `*/`, or `none` if there is none. -/
def afterClose : List Char → Option (List Char)
  | [] => none
  | c :: cs => if c = '*' ∧ cs.head? = some '/' then some cs.tail else afterClose cs

/-- The `\/\*[\s\S]*?\*\/` replacement (flag `g`, empty replacement),
fuelled for structural recursion: remove non-overlapping block comments,
each extending from a `/*` to the nearest following `*/` (the lazy
`[\s\S]*?`); a `/*` with no later `*/` matches nothing and the rest of the
string is kept verbatim (no `*/` can follow a later `/*` either).  Every
step consumes at least one input character, so fuel equal to the input
length always suffices; the out-of-fuel case, unreachable through
`stripBlockComments`, returns the input unchanged. -/
def stripBlockGo : Nat → List Char → List Char
  | _, [] => []
  | 0, s => s
  | fuel + 1, c :: cs =>
    if c = '/' ∧ cs.head? = some '*' then
      match afterClose cs.tail with
      | some rest => stripBlockGo fuel rest
      | none => c :: cs
    else c :: stripBlockGo fuel cs

/-- `replace` of `\/\*[\s\S]*?\*\/` (flag `g`) by the empty string. -/
def stripBlockComments (s : List Char) : List Char := stripBlockGo s.length s

/-- the `\0` removal replacement (flag `g`): remove null bytes. -/
def removeNulls (s : List Char) : List Char := s.filter (· ≠ '\x00')

/-- Drop trailing whitespace (the right half of `String.prototype.trim`). -/
def dropTrailingWs : List Char → List Char
  | [] => []
  | c :: cs =>
    let r := dropTrailingWs cs
    if r.isEmpty ∧ jsWhitespace c then [] else c :: r

/-- `String.prototype.trim`. -/
def jsTrim (s : List Char) : List Char := dropTrailingWs (s.dropWhile jsWhitespace)

/-- `SQLiAgent.normalize` on character lists: recursive URL decoding to a
fixed point, lower-casing, whitespace collapsing, `--` / block / `#` comment
stripping, null-byte removal, whitespace re-collapsing, trimming. -/
def normalizeL (s : List Char) : List Char :=
  jsTrim (collapseWs (removeNulls (stripHashComments (stripBlockComments
    (stripDashComments (collapseWs ((decodeFix s).map jsToLower)))))))

/-- `SQLiAgent.normalize`. -/
def normalize (s : String) : String := ⟨normalizeL s.data⟩

/-! ## Heuristic engine (`SQLiAgent.heuristicAnalysis`)

Each regex of the fixed pattern table is embedded as a decidable matcher.
A pattern with the `i` flag compares characters through `jsToLower`.
Positions are tried left to right (`anyPos`); matchers that need a `\b`
word boundary also receive the character preceding the position
(`anyPosPrev`).  Where the regexes use `\s*` or `\s+` followed by an atom
that cannot match a whitespace character, greedy whitespace skipping is
equivalent to the regex engine's backtracking and is used directly. -/

/-- Case-insensitive character equality (regex flag `i`). -/
def ciEq (a b : Char) : Bool := jsToLower a == jsToLower b

/-- Does the input start with the pattern, case-insensitively? -/
def ciStarts : List Char → List Char → Bool
  | [], _ => true
  | _ :: _, [] => false
  | p :: ps, c :: cs => ciEq p c && ciStarts ps cs

/-- Does the input start with the pattern, case-sensitively? -/
def csStarts : List Char → List Char → Bool
  | [], _ => true
  | _ :: _, [] => false
  | p :: ps, c :: cs => (p == c) && csStarts ps cs

/-- Does `p` hold at some position (suffix) of the input? -/
def anyPos (p : List Char → Bool) : List Char → Bool
  | [] => p []
  | s@(_ :: cs) => p s || anyPos p cs

/-- Like `anyPos`, but the predicate also sees the character immediately
before the position (`none` at the start of the string). -/
def anyPosPrev (p : Option Char → List Char → Bool) : Option Char → List Char → Bool
  | prev, [] => p prev []
  | prev, c :: cs => p prev (c :: cs) || anyPosPrev p (some c) cs

/-- `\b` before a position whose match starts with a word character. -/
def wordBoundaryBefore : Option Char → Bool
  | none => true
  | some c => !isWordCh c

/-- `\b` after a match ending in a word character: next char non-word or end. -/
def wordEndsAt : List Char → Bool
  | [] => true
  | c :: _ => !isWordCh c

/-- `\s*`: greedy whitespace skip. -/
def skipWs (s : List Char) : List Char := s.dropWhile jsWhitespace

/-- Is the head a whitespace character (the mandatory first character
of `\s+`)? -/
def headWs (s : List Char) : Bool :=
  match s with
  | c :: _ => jsWhitespace c
  | [] => false

/-- Consume one optional quote (`['"]?`).  The atom following the optional
quote in every use site cannot match a quote, so consuming a present quote
is equivalent to the regex engine's backtracking. -/
def quoteOpt (s : List Char) : List Char :=
  match s with
  | c :: cs => if c == '\'' || c == '"' then cs else s
  | [] => s

/-- Left alternative of the Tautology regex at one position:
`['"]\s*(=|LIKE)\s*['"]` with flag `i`. -/
def tautQuoteAt (s : List Char) : Bool :=
  match s with
  | c :: rest =>
    (c == '\'' || c == '"') &&
    (let r1 := skipWs rest
     let r2 : Option (List Char) :=
       if r1.head? == some '=' then some r1.tail
       else if ciStarts "like".data r1 then some (r1.drop 4) else none
     match r2 with
     | some r =>
       (match skipWs r with
        | d :: _ => d == '\'' || d == '"'
        | [] => false)
     | none => false)
  | [] => false

/-- Right alternative of the Tautology regex at one position:
`(\d+)\s*=\s*\2`.  With the regex's backtracking the only viable capture is
the maximal digit run at the position (a shorter capture leaves a digit
where `\s*=` must match). -/
def tautNumAt (s : List Char) : Bool :=
  let ds := s.takeWhile isDigitCh
  !ds.isEmpty &&
  (match skipWs (s.dropWhile isDigitCh) with
   | '=' :: r2 => csStarts ds (skipWs r2)
   | _ => false)

/-- `/['"]\s*(=|LIKE)\s*['"]|(\d+)\s*=\s*\2/i` — "Tautology". -/
def tautologyHit (s : List Char) : Bool := anyPos tautQuoteAt s || anyPos tautNumAt s

/-- `\bUNION\s+(ALL\s+)?SELECT\b` (flag `i`) at one position. -/
def unionAt (prev : Option Char) (s : List Char) : Bool :=
  wordBoundaryBefore prev && ciStarts "union".data s &&
  (let r := s.drop 5
   headWs r &&
   (let r1 := skipWs r
    let r2 := if ciStarts "all".data r1 && headWs (r1.drop 3)
              then skipWs (r1.drop 3) else r1
    ciStarts "select".data r2 && wordEndsAt (r2.drop 6)))

/-- `/\bUNION\s+(ALL\s+)?SELECT\b/i` — "Union Payload". -/
def unionHit (s : List Char) : Bool := anyPosPrev unionAt none s

/-- Does the input contain the pattern case-insensitively? -/
def ciHasSub (pat : List Char) (s : List Char) : Bool := anyPos (ciStarts pat) s

/-- Does the input contain the pattern case-sensitively
(`String.prototype.includes`)? -/
def csHasSub (pat : List Char) (s : List Char) : Bool := anyPos (csStarts pat) s

/-- `/@@(version|hostname|datadir)|user\(\)|database\(\)|system_user\(\)/i`
— "System Variable". -/
def sysVarHit (s : List Char) : Bool :=
  ciHasSub "@@version".data s || ciHasSub "@@hostname".data s ||
  ciHasSub "@@datadir".data s || ciHasSub "user()".data s ||
  ciHasSub "database()".data s || ciHasSub "system_user()".data s

/-- The capture `(\d+|true|false)` (flag `i`) at one position: returns the
captured source characters and the rest.  The three alternatives are
mutually exclusive, and the digit run is maximal for the same reason as in
`tautNumAt`. -/
def logicTokenAt (s : List Char) : Option (List Char × List Char) :=
  let ds := s.takeWhile isDigitCh
  if !ds.isEmpty then some (ds, s.dropWhile isDigitCh)
  else if ciStarts "true".data s then some (s.take 4, s.drop 4)
  else if ciStarts "false".data s then some (s.take 5, s.drop 5)
  else none

/-- `\b(OR|AND)\s+['"]?(\d+|true|false)['"]?\s*=\s*['"]?(\2|true|false)['"]?`
(flag `i`) at one position; the trailing `['"]?` always matches and is
omitted.  The backreference `\2` compares case-insensitively under `i`. -/
def logicAt (prev : Option Char) (s : List Char) : Bool :=
  wordBoundaryBefore prev &&
  (let kw : Option Nat :=
     if ciStarts "or".data s then some 2
     else if ciStarts "and".data s then some 3 else none
   match kw with
   | some k =>
     let r := s.drop k
     headWs r &&
     (match logicTokenAt (quoteOpt (skipWs r)) with
      | some (t, r2) =>
        (match skipWs (quoteOpt r2) with
         | '=' :: r4 =>
           let r5 := quoteOpt (skipWs r4)
           ciStarts t r5 || ciStarts "true".data r5 || ciStarts "false".data r5
         | _ => false)
      | none => false)
   | none => false)

/-- `/\b(OR|AND)\s+['"]?(\d+|true|false)['"]?\s*=\s*['"]?(\2|true|false)['"]?/i`
— "Logic Replacement". -/
def logicHit (s : List Char) : Bool := anyPosPrev logicAt none s

/-- `\b(SLEEP|BENCHMARK|WAITFOR\s+DELAY)\s*\(?` (flag `i`) at one position;
the trailing `\s*\(?` always matches (possibly emptily) and is omitted. -/
def timeAt (prev : Option Char) (s : List Char) : Bool :=
  wordBoundaryBefore prev &&
  (ciStarts "sleep".data s || ciStarts "benchmark".data s ||
   (ciStarts "waitfor".data s &&
    (let r := s.drop 7
     headWs r && ciStarts "delay".data (skipWs r))))

/-- `/\b(SLEEP|BENCHMARK|WAITFOR\s+DELAY)\s*\(?/i` — "Time-Based Injection". -/
def timeHit (s : List Char) : Bool := anyPosPrev timeAt none s

/-- One keyword alternative of the Stacked Query regex, with its closing
`\b`. -/
def stackedKwAt (kw : List Char) (s : List Char) : Bool :=
  ciStarts kw s && wordEndsAt (s.drop kw.length)

/-- `;\s*(DROP|INSERT|UPDATE|DELETE|ALTER|GRANT|REVOKE)\b` (flag `i`) at one
position. -/
def stackedAt (s : List Char) : Bool :=
  match s with
  | ';' :: r =>
    let r1 := skipWs r
    stackedKwAt "drop".data r1 || stackedKwAt "insert".data r1 ||
    stackedKwAt "update".data r1 || stackedKwAt "delete".data r1 ||
    stackedKwAt "alter".data r1 || stackedKwAt "grant".data r1 ||
    stackedKwAt "revoke".data r1
  | _ => false

/-- `/;\s*(DROP|INSERT|UPDATE|DELETE|ALTER|GRANT|REVOKE)\b/i` — "Stacked
Query". -/
def stackedHit (s : List Char) : Bool := anyPos stackedAt s

/-- The regex `--|\/\*|#` (no flags) — "SQL Comment Char". -/
def commentCharHit (s : List Char) : Bool :=
  csHasSub "--".data s || csHasSub "/*".data s || s.contains '#'

/-- One entry of the fixed, ordered pattern table. -/
structure PatternCheck where
  hit : List Char → Bool
  score : Nat
  name : String

/-- The pattern table of `heuristicAnalysis`, in source order. -/
def patternTable : List PatternCheck :=
  [⟨tautologyHit, 60, "Tautology"⟩,
   ⟨unionHit, 70, "Union Payload"⟩,
   ⟨sysVarHit, 50, "System Variable"⟩,
   ⟨logicHit, 45, "Logic Replacement"⟩,
   ⟨timeHit, 80, "Time-Based Injection"⟩,
   ⟨stackedHit, 60, "Stacked Query"⟩,
   ⟨commentCharHit, 10, "SQL Comment Char"⟩]

/-- The keyword list of the contextual check (`payload.includes(word)`,
case-sensitive). -/
def sqlKeywords : List String :=
  ["select", "from", "where", "insert", "update", "delete", "drop", "table",
   "information_schema"]

/-- `SQLiAgent.heuristicAnalysis`: apply the pattern table in order, add a
flat bonus of 20 when at least two distinct keywords occur, and cap the
total at 100.  All contributions are nonnegative, so the score is carried
in `Nat`. -/
def heuristicAnalysis (payload : String) : Nat × List String :=
  let cs := payload.data
  let base := patternTable.foldl
    (fun (acc : Nat × List String) p =>
      if p.hit cs then (acc.1 + p.score, acc.2 ++ [p.name]) else acc) (0, [])
  let keywordCount := (sqlKeywords.filter (fun w => csHasSub w.data cs)).length
  let withKw :=
    if 2 ≤ keywordCount then (base.1 + 20, base.2 ++ ["Multiple SQL Keywords"])
    else base
  (min withKw.1 100, withKw.2)

/-! ## Assessments and the AI-verification arbiter (`SQLiAgent`) -/

/-- The JSON object extracted and parsed from a Classifier response, before
any validation: each schema field may be absent (`JSON.parse` of an
arbitrary object).  The model restricts attention to responses whose
present fields carry the schema's types; risk scores are integral. -/
structure ParsedAssessment where
  attackType : Option String := none
  confidence : Option String := none
  riskScore : Option Int := none
  explanation : Option String := none
  impact : Option String := none
  mitigation : Option String := none
  action : Option String := none
  executive_summary : Option String := none
deriving DecidableEq, Repr

/-- Outcome of one `env.AI.run` call followed by response-text extraction
and `JSON.parse`: `err` models anything that throws inside the `try` block
(network failure, timeout, unparseable response text), `ok` a successfully
parsed JSON object. -/
inductive ClassifierOutcome where
  | err : ClassifierOutcome
  | ok (a : ParsedAssessment) : ClassifierOutcome
deriving DecidableEq, Repr

/-- An assessment as returned by `SQLiAgent`.  Because `aiVerification`
spreads the parsed JSON without validating it, every schema field can be
absent (`undefined`) in the returned object; the timestamp is always set. -/
structure AgentAssessment where
  attackType : Option String
  confidence : Option String
  riskScore : Option Int
  explanation : Option String
  impact : Option String
  mitigation : Option String
  action : Option String
  executive_summary : Option String
  timestamp : String
deriving DecidableEq, Repr

/-- `SQLiAgent.aiVerification`: on a parsed response, apply the
block-consistency adjustment — `action === 'block' && riskScore < 70`
raises the score to 75; an absent `riskScore` compares as false — and stamp
the timestamp; on any thrown error, fall back to a heuristic-derived
assessment (`block` iff the heuristic score exceeds 80, else `flag`).
The normalized payload parameter only feeds the model prompt. -/
def aiVerification (outcome : ClassifierOutcome) (now : String)
    (normalizedPayload : String) (heuristicScore : Nat) (flags : List String) :
    AgentAssessment :=
  match outcome with
  | .ok a =>
    let floored : Option Int :=
      if a.action == some "block" &&
         (match a.riskScore with | some r => decide (r < 70) | none => false)
      then some 75 else a.riskScore
    ⟨a.attackType, a.confidence, floored, a.explanation, a.impact,
     a.mitigation, a.action, a.executive_summary, now⟩
  | .err =>
    ⟨some "SQLi (Heuristic Fallback)", some "Medium", some (heuristicScore : Int),
     some ("AI Verification failed. Heuristic analysis detected: " ++
       String.intercalate ", " flags),
     some "Potential SQL Injection", some "Manual Review",
     some (if 80 < heuristicScore then "block" else "flag"),
     some "Heuristic analysis detected suspicious SQL patterns when AI verification failed.",
     now⟩

/-- `SQLiAgent.analyze`: normalize, score heuristically; at score ≤ 50 (the
agent's `THRESHOLD`) return the benign low-risk verdict without consulting
the Classifier; otherwise run AI verification.  The Bool records whether
the Classifier collaborator was invoked. -/
def analyze (outcome : ClassifierOutcome) (now : String) (payload : String) :
    AgentAssessment × Bool :=
  let normalized := normalize payload
  let sf := heuristicAnalysis normalized
  if sf.1 ≤ 50 then
    (⟨some "SQLi", some "Low", some (sf.1 : Int),
      some "Heuristic analysis indicates low probability of SQL injection.",
      some "None", some "None", some "allow",
      some "Payload classified as benign by heuristic analysis.", now⟩, false)
  else (aiVerification outcome now normalized sf.1 sf.2, true)

/-! ## The workflow (`SentinelWorkflow.run`, src/memory.ts) -/

/-- `isSecurityAssessment` (src/types.ts): field presence with type and
enum checks.  Note that `riskScore` is only required to be a number — there
is no range check (as the repository's smoke tests document). -/
def isSecurityAssessment (a : ParsedAssessment) : Bool :=
  a.attackType.isSome &&
  (a.confidence == some "High" || a.confidence == some "Medium" ||
   a.confidence == some "Low") &&
  a.explanation.isSome && a.impact.isSome && a.mitigation.isSome &&
  a.riskScore.isSome &&
  (a.action == some "allow" || a.action == some "block" || a.action == some "flag")

/-- A `SecurityAssessment` (src/types.ts) as produced by the workflow: all
fields present.  Times are modelled as milliseconds since the epoch
(`Date.now()`); the ISO string rendering is order-isomorphic. -/
structure SecurityAssessment where
  attackType : String
  confidence : String
  explanation : String
  impact : String
  mitigation : String
  riskScore : Int
  action : String
  timestamp : Nat
deriving DecidableEq, Repr

/-- The fail-safe default of the `ai-risk-inference` step: if AI is down or
returns invalid data, assume high risk and fail closed (the explanation
carries the thrown error's message; a fixed string stands in for it). -/
def failClosedAssessment (now : Nat) : SecurityAssessment :=
  ⟨"System Failure", "Low", "AI Inference Service Unavailable",
   "Unable to assess threat level", "Manual review required", 100, "block", now⟩

/-- The `ai-risk-inference` step: parse, validate with
`isSecurityAssessment` (rejection throws, landing in the fail-closed
handler), and stamp the timestamp.  The `getD` defaults are unreachable
when the validation succeeds. -/
def inferAssessment (ai : ClassifierOutcome) (now : Nat) : SecurityAssessment :=
  match ai with
  | .ok a =>
    if isSecurityAssessment a then
      ⟨a.attackType.getD "", a.confidence.getD "", a.explanation.getD "",
       a.impact.getD "", a.mitigation.getD "", a.riskScore.getD 0,
       a.action.getD "", now⟩
    else failClosedAssessment now
  | .err => failClosedAssessment now

/-- Outcome of the Cloudflare enforcement `create` request.  `rateLimited`
models an HTTP 429 — or any thrown error whose message contains "429",
which the step re-throws; `httpError` any other non-ok status, thrown
fetch, or unparseable response body (all swallowed); `created` a success,
with `none` when the body has no `result.id` (then `ruleId ||
"tracked-only"` falls back to the sentinel, as it would for any falsy id). -/
inductive EnforceOutcome where
  | rateLimited : EnforceOutcome
  | httpError : EnforceOutcome
  | created (ruleId : Option String) : EnforceOutcome
deriving DecidableEq, Repr

/-- The collaborators and failure switches of one workflow run. -/
structure WorkflowOracle where
  /-- outcome of the AI call (step 2). -/
  ai : ClassifierOutcome
  /-- the cache `put` fails (caught inside `storeAssessment`). -/
  cachePutFails : Bool
  /-- `SOC_WEBHOOK_URL` is configured. -/
  socConfigured : Bool
  /-- the SOC webhook rejects or throws (caught inside step 4). -/
  socFails : Bool
  /-- `CLOUDFLARE_API_TOKEN` and `CLOUDFLARE_ZONE_ID` are configured. -/
  cfConfigured : Bool
  /-- outcome of the enforcement create request. -/
  enforce : EnforceOutcome
  /-- the mitigation-metadata KV `put` fails (caught inside step 5). -/
  mitPutFails : Bool
deriving DecidableEq, Repr

/-- A mitigation-registry record: the `ruleMetadata` JSON stored at
`mitigation:<sourceIP>`. -/
structure MitRecord where
  ruleId : String
  sourceIP : String
  attackType : String
  riskScore : Int
  createdAt : Nat
  expiresAt : Nat
deriving DecidableEq, Repr

/-- Side-effect requests issued by a workflow run, in order.  A `Fails`
switch in the oracle makes the collaborator reject the request; the event
still records that the request was issued, with its success flag. -/
inductive TraceEv where
  | cachePut (key : String) (a : SecurityAssessment) (ttlSeconds : Nat) (ok : Bool)
  | socAlert (severity : String) (ok : Bool)
  | enforceCreate (ip : String)
  | mitPut (key : String) (record : MitRecord) (ttlSeconds : Nat) (ok : Bool)
deriving DecidableEq, Repr

/-- The parameters handed to the workflow by the API layer. -/
structure WorkflowParams where
  payload : String
  cacheKey : String
  sourceIP : Option String
deriving DecidableEq, Repr

/-- The workflow's `sanitize-payload` step:
`payload.trim().toLowerCase().replace` of null bytes. -/
def sanitizePayload (s : String) : String :=
  ⟨removeNulls ((jsTrim s.data).map jsToLower)⟩

/-- `SentinelWorkflow.run` (src/memory.ts): infer the assessment
(fail-closed), cache it unless it is a System Failure, fire the SOC alert
for block or high-risk verdicts, and track / enforce mitigation for
high-risk sources.  A rate-limited enforcement create is re-thrown
(`Except.error`, intended to trigger a durable-workflow retry); every other
side-effect failure is contained inside its step.  `now` is `Date.now()`
in milliseconds.  The sanitize step only feeds the AI prompt and has no
further observable effect here. -/
def SentinelWorkflow.run (o : WorkflowOracle) (p : WorkflowParams) (now : Nat) :
    Except String SecurityAssessment × List TraceEv :=
  let assessment := inferAssessment o.ai now
  let t3 : List TraceEv :=
    if assessment.attackType ≠ "System Failure" then
      [.cachePut ("assessment:" ++ p.cacheKey) assessment 259200 (!o.cachePutFails)]
    else []
  let shouldAlert := assessment.action == "block" || decide (80 < assessment.riskScore)
  let t4 : List TraceEv :=
    if shouldAlert && o.socConfigured then
      [.socAlert
        (if 90 ≤ assessment.riskScore then "critical"
         else if 70 ≤ assessment.riskScore then "high" else "medium")
        (!o.socFails)]
    else []
  let shouldTrack := decide (70 < assessment.riskScore)
  let shouldBlock := decide (95 ≤ assessment.riskScore)
  if !shouldTrack then (.ok assessment, t3 ++ t4)
  else
    match p.sourceIP with
    | none => (.ok assessment, t3 ++ t4)
    | some ip =>
      let attempt := shouldBlock && o.cfConfigured
      let t5a : List TraceEv := if attempt then [.enforceCreate ip] else []
      if attempt && (o.enforce == .rateLimited) then
        (.error "Rate limited by Cloudflare API (429)", t3 ++ t4 ++ t5a)
      else
        let ruleId : Option String :=
          if attempt then
            match o.enforce with
            | .created rid => rid
            | _ => none
          else none
        let record : MitRecord :=
          ⟨ruleId.getD "tracked-only", ip, assessment.attackType,
           assessment.riskScore, now, now + 3600000⟩
        (.ok assessment,
         t3 ++ t4 ++ t5a ++
           [.mitPut ("mitigation:" ++ ip) record 3600 (!o.mitPutFails)])

/-! ## SHA-256 and the cache fingerprint (src/index.ts)

The analyze endpoint computes
`crypto.subtle.digest("SHA-256", utf8(payload + "-v2-salt"))` and renders
it as lowercase hex.  SHA-256 (FIPS 180-4) is implemented here over lists
of byte values, with 32-bit words as `Nat` reduced mod `2^32`. -/

/-- Truncate to a 32-bit word. -/
def w32 (x : Nat) : Nat := x % 4294967296

/-- Right-rotation of a 32-bit word. -/
def rotr32 (n x : Nat) : Nat := (x >>> n) ||| w32 (x <<< (32 - n))

/-- `Ch(x,y,z)` (bitwise complement as xor with the all-ones word). -/
def shaCh (x y z : Nat) : Nat := (x &&& y) ^^^ ((x ^^^ 0xffffffff) &&& z)

/-- `Maj(x,y,z)`. -/
def shaMaj (x y z : Nat) : Nat := (x &&& y) ^^^ (x &&& z) ^^^ (y &&& z)

/-- `Σ0`. -/
def bigSigma0 (x : Nat) : Nat := rotr32 2 x ^^^ rotr32 13 x ^^^ rotr32 22 x

/-- `Σ1`. -/
def bigSigma1 (x : Nat) : Nat := rotr32 6 x ^^^ rotr32 11 x ^^^ rotr32 25 x

/-- `σ0`. -/
def smallSigma0 (x : Nat) : Nat := rotr32 7 x ^^^ rotr32 18 x ^^^ (x >>> 3)

/-- `σ1`. -/
def smallSigma1 (x : Nat) : Nat := rotr32 17 x ^^^ rotr32 19 x ^^^ (x >>> 10)

/-- The 64 round constants of FIPS 180-4, rendered in decimal. -/
def sha256K : List Nat :=
  [1116352408, 1899447441, 3049323471, 3921009573, 961987163,
   1508970993, 2453635748, 2870763221, 3624381080, 310598401,
   607225278, 1426881987, 1925078388, 2162078206, 2614888103,
   3248222580, 3835390401, 4022224774, 264347078, 604807628,
   770255983, 1249150122, 1555081692, 1996064986, 2554220882,
   2821834349, 2952996808, 3210313671, 3336571891, 3584528711,
   113926993, 338241895, 666307205, 773529912, 1294757372,
   1396182291, 1695183700, 1986661051, 2177026350, 2456956037,
   2730485921, 2820302411, 3259730800, 3345764771, 3516065817,
   3600352804, 4094571909, 275423344, 430227734, 506948616,
   659060556, 883997877, 958139571, 1322822218, 1537002063,
   1747873779, 1955562222, 2024104815, 2227730452, 2361852424,
   2428436474, 2756734187, 3204031479, 3329325298]

/-- The initial hash value of FIPS 180-4, rendered in decimal. -/
def sha256H0 : List Nat :=
  [1779033703, 3144134277, 1013904242, 2773480762,
   1359893119, 2600822924, 528734635, 1541459225]

/-- Render a value as `n` big-endian bytes. -/
def natToBytesBE (n : Nat) (v : Nat) : List Nat :=
  (List.range n).map (fun i => (v >>> (8 * (n - 1 - i))) % 256)

/-- Merkle–Damgård padding: append `0x80`, zero bytes to 56 mod 64, and the
8-byte big-endian bit length. -/
def sha256Pad (msg : List Nat) : List Nat :=
  msg ++ [0x80] ++ List.replicate ((64 - ((msg.length + 9) % 64)) % 64) 0 ++
  natToBytesBE 8 (8 * msg.length)

/-- Group bytes into big-endian 32-bit words. -/
def bytesToWords : List Nat → List Nat
  | b0 :: b1 :: b2 :: b3 :: rest =>
    (((b0 * 256 + b1) * 256 + b2) * 256 + b3) :: bytesToWords rest
  | _ => []

/-- Extend 16 message words to the 64-word schedule. -/
def sha256Schedule (ws : List Nat) : List Nat :=
  (List.range 48).foldl
    (fun acc _ =>
      let t := acc.length
      acc ++ [w32 (smallSigma1 (acc.getD (t - 2) 0) + acc.getD (t - 7) 0 +
                   smallSigma0 (acc.getD (t - 15) 0) + acc.getD (t - 16) 0)])
    ws

/-- One round of the compression function on the state `[a,…,h]`. -/
def sha256Round (k w : Nat) (st : List Nat) : List Nat :=
  match st with
  | [a, b, c, d, e, f, g, h] =>
    let temp1 := w32 (h + bigSigma1 e + shaCh e f g + k + w)
    let temp2 := w32 (bigSigma0 a + shaMaj a b c)
    [w32 (temp1 + temp2), a, b, c, w32 (d + temp1), e, f, g]
  | other => other

/-- Compress one 512-bit block into the chaining value. -/
def sha256Block (h : List Nat) (blockWords : List Nat) : List Nat :=
  let st := (sha256K.zip (sha256Schedule blockWords)).foldl
    (fun st kw => sha256Round kw.1 kw.2 st) h
  (h.zip st).map (fun p => w32 (p.1 + p.2))

/-- Split a byte list into 64-byte chunks, fuelled for structural
recursion (each chunk consumes at least one element, so fuel equal to the
input length suffices; the out-of-fuel case is unreachable). -/
def chunk64Go : Nat → List Nat → List (List Nat)
  | _, [] => []
  | 0, _ => []
  | fuel + 1, b :: bs => ((b :: bs).take 64) :: chunk64Go fuel ((b :: bs).drop 64)

/-- Split a byte list into 64-byte chunks. -/
def chunk64 (bs : List Nat) : List (List Nat) := chunk64Go bs.length bs

/-- SHA-256 of a byte list, as 32 bytes. -/
def sha256 (msg : List Nat) : List Nat :=
  let hFinal := (chunk64 (sha256Pad msg)).foldl
    (fun h blk => sha256Block h (bytesToWords blk)) sha256H0
  hFinal.foldr (fun w acc => natToBytesBE 4 w ++ acc) []

/-- A lowercase hex digit. -/
def hexChar (n : Nat) : Char :=
  Char.ofNat (if n < 10 then 48 + n else 87 + n)

/-- Lowercase hex rendering of bytes (`padStart(2, "0")` of each byte). -/
def bytesToHex (bs : List Nat) : String :=
  ⟨bs.foldr (fun b acc => hexChar (b / 16) :: hexChar (b % 16) :: acc) []⟩

/-- UTF-8 encoding of one character (`TextEncoder`). -/
def utf8EncodeChar (c : Char) : List Nat :=
  let n := c.toNat
  if n < 0x80 then [n]
  else if n < 0x800 then [0xc0 + n / 64, 0x80 + n % 64]
  else if n < 0x10000 then
    [0xe0 + n / 4096, 0x80 + (n / 64) % 64, 0x80 + n % 64]
  else
    [0xf0 + n / 262144, 0x80 + (n / 4096) % 64, 0x80 + (n / 64) % 64,
     0x80 + n % 64]

/-- UTF-8 encoding of a string (`TextEncoder.encode`). -/
def utf8Encode (s : String) : List Nat :=
  s.data.foldr (fun c acc => utf8EncodeChar c ++ acc) []

/-- The cache fingerprint of the analyze endpoint: SHA-256 of the UTF-8
bytes of the raw request payload with the application salt `-v2-salt`
appended, rendered as lowercase hex. -/
def cacheKey (payload : String) : String :=
  bytesToHex (sha256 (utf8Encode (payload ++ "-v2-salt")))

/-! ## The analyze endpoint (src/index.ts, `fetch`) -/

/-- A key-value store as an association list; `kvPut` overwrites any
existing entry for the key (KV `put` semantics). -/
def kvGet {α : Type} (store : List (String × α)) (k : String) : Option α :=
  (store.find? (fun e => e.1 == k)).map (fun e => e.2)

/-- Overwriting insert. -/
def kvPut {α : Type} (store : List (String × α)) (k : String) (v : α) :
    List (String × α) :=
  (store.filter (fun e => e.1 ≠ k)) ++ [(k, v)]

/-- The responses of POST `/v1/analyze` after request validation: a cache
hit, a fresh analysis, or — when the inline workflow run throws — an HTTP
500 error body, which carries the thrown message and no assessment. -/
inductive ApiResponse where
  | cached (a : SecurityAssessment)
  | analyzed (a : SecurityAssessment)
  | serverError (msg : String)
deriving DecidableEq, Repr

/-- Is the response the HTTP 500 error branch? -/
def ApiResponse.isServerError : ApiResponse → Bool
  | .serverError _ => true
  | _ => false

/-- POST `/v1/analyze` (src/index.ts) after JSON validation: compute the
fingerprint of the raw payload, return any cached assessment immediately,
else run the workflow inline with `workflowId = scan-<fingerprint>`; a
throw out of the run is caught and converted to the 500 error response. -/
def handleAnalyze (store : List (String × SecurityAssessment))
    (o : WorkflowOracle) (payload : String) (sourceIP : Option String)
    (now : Nat) : ApiResponse × List TraceEv :=
  let key := cacheKey payload
  match kvGet store ("assessment:" ++ key) with
  | some a => (.cached a, [])
  | none =>
    match SentinelWorkflow.run o ⟨payload, key, sourceIP⟩ now with
    | (.ok a, tr) => (.analyzed a, tr)
    | (.error e, tr) => (.serverError e, tr)

/-! ## The expiry sweep (src/index.ts, `scheduled`)

The scheduled handler pages through all `mitigation:` keys with
`SENTINEL_KV.list({prefix, limit: 1000, cursor})` in a do-while loop,
accumulating totals, and reconciles expired records. -/

/-- Outcome of one Cloudflare `DELETE …/access_rules/rules/{id}` call:
success, a non-ok status (logged, counted as error, local delete still
performed), or a thrown fetch (caught by the per-key handler, which skips
the local delete). -/
inductive DelOutcome where
  | ok : DelOutcome
  | httpError : DelOutcome
  | threw : DelOutcome
deriving DecidableEq, Repr

/-- Running totals of one sweep, as accumulated by `scheduled`. -/
structure SweepTotals where
  /-- number of `list` page requests issued. -/
  pages : Nat
  /-- `totalKeysScanned`. -/
  scanned : Nat
  /-- every key visited by the per-page loop, in order. -/
  visited : List String
  /-- `cleanedCount`: successfully deleted external rules. -/
  cleaned : Nat
  /-- `errorCount`. -/
  errors : Nat
  /-- keys whose local KV record was deleted. -/
  localDeleted : List String
  /-- `list_complete` reported by the final page request. -/
  finalComplete : Bool
deriving DecidableEq, Repr

/-- Modelled from the spec: the registry pagination protocol
`list(prefix, cursor?, limit) -> (entries, nextCursor?, complete)` of the
external KV collaborator (§6), which is not part of the repository's
sources.  A page holds up to `limit` entries from the cursor position and
`complete` is true exactly when no entries remain beyond the page. -/
def registryList (remaining : List (String × MitRecord)) (limit : Nat) :
    List (String × MitRecord) × Bool :=
  (remaining.take limit, decide (remaining.length ≤ limit))

/-- Process one listed key (the body of the per-page for loop): an expired
record triggers the external rule deletion when the API is configured —
counting success or error — and then the local KV delete; a thrown deletion
is caught per key and skips the local delete; an unexpired record is left
untouched. -/
def processEntry (now : Nat) (cfConfigured : Bool)
    (ruleDelete : String → DelOutcome) (acc : SweepTotals)
    (e : String × MitRecord) : SweepTotals :=
  if e.2.expiresAt ≤ now then
    if cfConfigured then
      match ruleDelete e.2.ruleId with
      | .ok =>
        { acc with cleaned := acc.cleaned + 1,
                   localDeleted := acc.localDeleted ++ [e.1] }
      | .httpError =>
        { acc with errors := acc.errors + 1,
                   localDeleted := acc.localDeleted ++ [e.1] }
      | .threw => { acc with errors := acc.errors + 1 }
    else { acc with localDeleted := acc.localDeleted ++ [e.1] }
  else acc

/-- The do-while pagination loop of `scheduled`: request a page of at most
1,000 keys, process it, and continue from the cursor until the store
reports completion.  The loop guard `while (!listComplete)` is written out
as the proposition `remaining.length ≤ 1000`, which is definitionally the
`complete` flag `(registryList remaining 1000).2` reported by the page
request.  At least one page request is always issued (do-while). -/
def sweepLoop (now : Nat) (cfConfigured : Bool)
    (ruleDelete : String → DelOutcome)
    (remaining : List (String × MitRecord)) (acc : SweepTotals) : SweepTotals :=
  let page := (registryList remaining 1000).1
  let acc' := page.foldl (processEntry now cfConfigured ruleDelete)
    { acc with pages := acc.pages + 1,
               scanned := acc.scanned + page.length,
               visited := acc.visited ++ page.map (fun e => e.1),
               finalComplete := (registryList remaining 1000).2 }
  if remaining.length ≤ 1000 then acc'
  else sweepLoop now cfConfigured ruleDelete (remaining.drop 1000) acc'
termination_by remaining.length
decreasing_by
  rename_i h
  simp only [List.length_drop]
  omega

/-- The `scheduled` cron handler restricted to its observable sweep
behaviour: sweep the full `mitigation:` listing of the registry. -/
def scheduledSweep (registry : List (String × MitRecord)) (now : Nat)
    (cfConfigured : Bool) (ruleDelete : String → DelOutcome) : SweepTotals :=
  sweepLoop now cfConfigured ruleDelete registry ⟨0, 0, [], 0, 0, [], true⟩

/-! ## Helper definitions for the statements -/

/-- Is the event a mitigation-record write request? -/
def TraceEv.isMitPut : TraceEv → Bool
  | .mitPut _ _ _ _ => true
  | _ => false

/-- The optional rule id produced by the enforcement part of the
`mitigate-threat` step: present only when the score reaches the auto-block
tier, the Cloudflare API is configured, and the create call returned an id. -/
def mitRuleId (o : WorkflowOracle) (now : Nat) : Option String :=
  if decide (95 ≤ (inferAssessment o.ai now).riskScore) && o.cfConfigured then
    match o.enforce with
    | .created rid => rid
    | _ => none
  else none

/-- The mitigation record written by a tracked run for source `ip`. -/
def mitRecordOf (o : WorkflowOracle) (ip : String) (now : Nat) : MitRecord :=
  ⟨(mitRuleId o now).getD "tracked-only", ip, (inferAssessment o.ai now).attackType,
   (inferAssessment o.ai now).riskScore, now, now + 3600000⟩

/-- Execute the successful mitigation-record writes of a trace against a
registry store (a failed put leaves the store unchanged). -/
def applyMitPuts (tr : List TraceEv) (store : List (String × MitRecord)) :
    List (String × MitRecord) :=
  tr.foldl
    (fun st ev =>
      match ev with
      | .mitPut k r _ ok => if ok then kvPut st k r else st
      | _ => st) store

/-- Number of entries of a store under a given key. -/
def countKey {α : Type} (store : List (String × α)) (k : String) : Nat :=
  (store.filter (fun e => e.1 = k)).length

/-- Head is absent or not whitespace. -/
def headNonWs : List Char → Bool
  | [] => true
  | c :: _ => !jsWhitespace c

/-- Every whitespace character is a plain space. -/
def wsOnlySpace (s : List Char) : Bool := s.all (fun c => !jsWhitespace c || c == ' ')

/-- No two adjacent whitespace characters. -/
def noDoubleWs : List Char → Bool
  | [] => true
  | [_] => true
  | a :: b :: t => !(jsWhitespace a && jsWhitespace b) && noDoubleWs (b :: t)

/-- Every character is fixed by `jsToLower`. -/
def loweredStr (s : List Char) : Bool := s.all (fun c => jsToLower c == c)

/-! ## General lemmas -/

/-- The heuristic score is capped at 100 by the final `Math.min`. -/
theorem heuristic_le_100 (x : String) : (heuristicAnalysis x).1 ≤ 100 := by
  unfold heuristicAnalysis
  exact min_le_right _ _

/-! ## C5 — heuristic gate -/

/-- C5: for every input whose normalized heuristic score is at most 50, the
external Classifier collaborator is never invoked (`analyze` reports no
classifier call) and the arbiter returns immediately a low-risk assessment
with action `allow`. -/
theorem C5_no_escalation_below_threshold (outcome : ClassifierOutcome)
    (now payload : String)
    (h : (heuristicAnalysis (normalize payload)).1 ≤ 50) :
    (analyze outcome now payload).2 = false ∧
    (analyze outcome now payload).1.action = some "allow" := by
  constructor <;>
  · simp only [analyze]
    split
    next => rfl
    next hgt => exact absurd h hgt

/-- Witness for C5 at Scenario B's input `select an option from the menu`
(heuristic score 20 from the keyword bonus alone). -/
theorem C5_witness :
    (heuristicAnalysis (normalize "select an option from the menu")).1 ≤ 50 ∧
    ((analyze .err "t" "select an option from the menu").2 = false ∧
     (analyze .err "t" "select an option from the menu").1.action = some "allow") :=
  ⟨by decide,
   C5_no_escalation_below_threshold .err "t" "select an option from the menu"
     (by decide)⟩

/-! ## C1 — block-consistency floor -/

/-- C1 (counterexample): a validated classifier verdict with
`action = block` and `riskScore = 72 < 75` passes the arbiter unchanged —
the floor only triggers below 70 — so the returned risk score stays 72,
contradicting the claimed `riskScore ≥ 75`. -/
theorem C1_counterexample :
    isSecurityAssessment ⟨some "SQLi", some "High", some 72, some "e",
      some "i", some "m", some "block", none⟩ = true ∧
    (aiVerification (.ok ⟨some "SQLi", some "High", some 72, some "e",
      some "i", some "m", some "block", none⟩) "t" "p" 90 []).riskScore =
      some 72 ∧
    (72 : Int) < 75 :=
  ⟨rfl, rfl, by decide⟩

/-- C1 (amended): the arbiter's consistency adjustment triggers at
`riskScore < 70`, raising the score to 75; block verdicts with score in
`[70, 75)` are returned unchanged, so the guaranteed floor for a block
verdict is 70, not 75. -/
theorem C1_amended (a : ParsedAssessment) (now p : String) (hs : Nat)
    (fl : List String) (r : Int) (hb : a.action = some "block")
    (hr : a.riskScore = some r) :
    (aiVerification (.ok a) now p hs fl).riskScore =
      some (if r < 70 then 75 else r) ∧
    70 ≤ (if r < 70 then (75 : Int) else r) := by
  unfold aiVerification
  simp only [hb, hr]
  constructor
  · by_cases hlt : r < 70 <;> simp [hlt]
  · by_cases hlt : r < 70 <;> simp [hlt] <;> omega

/-- Witness for C1's amended floor: a block verdict at 65 is raised to 75. -/
theorem C1_witness :
    (aiVerification (.ok ⟨some "SQLi", some "High", some 65, some "e",
      some "i", some "m", some "block", none⟩) "t" "p" 90 []).riskScore =
      some 75 := by
  have h := (C1_amended ⟨some "SQLi", some "High", some 65, some "e",
    some "i", some "m", some "block", none⟩ "t" "p" 90 [] 65 rfl rfl).1
  simpa using h

/-! ## C7 — classifier failure fallback -/

/-- C7 (counterexample): the SQLi arbiter performs no schema validation, so
a schema-invalid but parseable classifier response (here the empty JSON
object) is not routed to the heuristic fallback: the returned assessment
has no `attackType` (not the fallback tag) and no `riskScore` (not the
heuristic score 85). -/
theorem C7_counterexample :
    (aiVerification (.ok ⟨none, none, none, none, none, none, none, none⟩)
      "t" "p" 85 []).attackType = none ∧
    (aiVerification (.ok ⟨none, none, none, none, none, none, none, none⟩)
      "t" "p" 85 []).riskScore = none :=
  ⟨rfl, rfl⟩

/-- C7 (amended): whenever the Classifier is actually consulted (heuristic
score above the gate's threshold 50) and the call throws, times out, or
yields unparseable text (all modelled by `ClassifierOutcome.err`), `analyze`
returns the heuristic-fallback assessment and never an exception:
`attackType` tagged `SQLi (Heuristic Fallback)`, `riskScore` equal to the
heuristic score, and action `block` exactly when the score strictly exceeds
80, `flag` otherwise — covering every reachable failing call, including
scores in (50, 80].  Schema-invalid parseable responses are not validated
and flow through unchanged. -/
theorem C7_amended (now payload : String)
    (h : 50 < (heuristicAnalysis (normalize payload)).1) :
    analyze .err now payload =
      (⟨some "SQLi (Heuristic Fallback)", some "Medium",
        some ((heuristicAnalysis (normalize payload)).1 : Int),
        some ("AI Verification failed. Heuristic analysis detected: " ++
          String.intercalate ", " (heuristicAnalysis (normalize payload)).2),
        some "Potential SQL Injection", some "Manual Review",
        some (if 80 < (heuristicAnalysis (normalize payload)).1 then "block"
          else "flag"),
        some "Heuristic analysis detected suspicious SQL patterns when AI verification failed.",
        now⟩, true) := by
  simp only [analyze]
  rw [if_neg (by omega)]
  rfl

/-- Witness for C7 inside the previously unsettled band: the time-based
payload scores exactly 80 (strictly above the gate, not above the block
tier), so the failing classifier call yields the fallback with action
`flag`. -/
theorem C7_witness :
    (50 < (heuristicAnalysis (normalize "WAITFOR DELAY '0:0:5'")).1 ∧
     analyze .err "t" "WAITFOR DELAY '0:0:5'" =
      (⟨some "SQLi (Heuristic Fallback)", some "Medium",
        some ((heuristicAnalysis (normalize "WAITFOR DELAY '0:0:5'")).1 : Int),
        some ("AI Verification failed. Heuristic analysis detected: " ++
          String.intercalate ", "
            (heuristicAnalysis (normalize "WAITFOR DELAY '0:0:5'")).2),
        some "Potential SQL Injection", some "Manual Review",
        some (if 80 < (heuristicAnalysis (normalize "WAITFOR DELAY '0:0:5'")).1
          then "block" else "flag"),
        some "Heuristic analysis detected suspicious SQL patterns when AI verification failed.",
        "t"⟩, true)) ∧
    (heuristicAnalysis (normalize "WAITFOR DELAY '0:0:5'")).1 = 80 ∧
    (analyze .err "t" "WAITFOR DELAY '0:0:5'").1.action = some "flag" :=
  ⟨⟨by decide, C7_amended "t" "WAITFOR DELAY '0:0:5'" (by decide)⟩,
   by decide, by decide⟩

/-! ## C6 — risk-score range -/

/-- C6 (counterexample): the validation step has no range check, so a
classifier response with `riskScore = 150` is accepted by
`isSecurityAssessment` and the workflow returns it unchanged — the
pipeline's returned risk score is not confined to `[0, 100]`. -/
theorem C6_counterexample :
    isSecurityAssessment ⟨some "SQLi", some "High", some 150, some "e",
      some "i", some "m", some "flag", none⟩ = true ∧
    (SentinelWorkflow.run
      ⟨.ok ⟨some "SQLi", some "High", some 150, some "e", some "i", some "m",
        some "flag", none⟩, false, false, false, false, .created none, false⟩
      ⟨"p", "k", none⟩ 0).1 =
      .ok ⟨"SQLi", "High", "e", "i", "m", 150, "flag", 0⟩ ∧
    ¬ ((150 : Int) ≤ 100) :=
  ⟨rfl, rfl, by decide⟩

/-- C6 (amended): the heuristic score is capped at 100 and, being a count
of nonnegative weights, never negative; consequently every
heuristic-derived assessment (the low-risk early return and the fallback,
i.e. every run in which no classifier verdict is accepted) carries a
`riskScore` within `[0, 100]`.  Scores supplied by an accepted classifier
verdict are passed through without a range check. -/
theorem C6_amended (x now : String) :
    (heuristicAnalysis x).1 ≤ 100 ∧
    (analyze .err now x).1.riskScore.all
      (fun r => decide (0 ≤ r) && decide (r ≤ 100)) = true := by
  refine ⟨heuristic_le_100 x, ?_⟩
  have hcap := heuristic_le_100 (normalize x)
  simp only [analyze]
  split
  · simp only [Option.all_some, Bool.and_eq_true, decide_eq_true_eq]
    exact ⟨Int.ofNat_nonneg _, by exact_mod_cast hcap⟩
  · simp only [aiVerification, Option.all_some, Bool.and_eq_true,
      decide_eq_true_eq]
    exact ⟨Int.ofNat_nonneg _, by exact_mod_cast hcap⟩

/-! ## C2 — side-effect isolation and the pipeline boundary -/

/-- C2 (counterexample): a rate-limited enforcement create is re-thrown out
of the workflow, and the analyze handler converts it into an HTTP 500 error
response — an error result, not a synthetic fail-closed assessment. -/
theorem C2_counterexample :
    (handleAnalyze []
      ⟨.ok ⟨some "SQLi", some "High", some 96, some "e", some "i", some "m",
        some "block", none⟩, false, false, false, true, .rateLimited, false⟩
      "payload" (some "1.2.3.4") 0).1 =
      .serverError "Rate limited by Cloudflare API (429)" :=
  rfl

/-- C2 (amended): as long as the enforcement collaborator is not
rate-limited, the workflow always returns `ok` with the assessment computed
by the inference step alone — AI failures are converted there into the
fail-closed assessment (`riskScore = 100`, `action = block`), and no
failure of caching, alerting, or enforcement alters the result.  A
rate-limited enforcement create, however, is re-thrown and surfaces as an
error result at the HTTP boundary. -/
theorem C2_amended (o : WorkflowOracle) (p : WorkflowParams) (now : Nat)
    (h : o.enforce ≠ .rateLimited) :
    (SentinelWorkflow.run o p now).1 = .ok (inferAssessment o.ai now) := by
  have hb : (o.enforce == EnforceOutcome.rateLimited) = false := by
    cases he : o.enforce <;> simp_all
  simp only [SentinelWorkflow.run, hb, Bool.and_false, Bool.false_eq_true,
    if_false]
  split
  · rfl
  · split
    · rfl
    · rfl

/-- Witness for C2: with every side-effect switch failing (cache put, SOC
webhook, mitigation put) and the AI itself down, the run still returns the
fail-closed assessment. -/
theorem C2_witness :
    (⟨.err, true, true, true, true, .httpError, true⟩ :
      WorkflowOracle).enforce ≠ .rateLimited ∧
    (SentinelWorkflow.run ⟨.err, true, true, true, true, .httpError, true⟩
      ⟨"p", "k", some "1.2.3.4"⟩ 7).1 = .ok (inferAssessment .err 7) :=
  ⟨by decide,
   C2_amended ⟨.err, true, true, true, true, .httpError, true⟩
     ⟨"p", "k", some "1.2.3.4"⟩ 7 (by decide)⟩

/-! ## C8 / C10 — the mitigation registry -/

/-- A tracked run (risk score strictly above 70, source IP present,
enforcement not rate-limited) issues a mitigation-record write at key
`mitigation:<ip>` with a one-hour TTL carrying `mitRecordOf`. -/
theorem run_tracked_mitPut (o : WorkflowOracle) (pc pk ip : String)
    (now : Nat) (htrack : 70 < (inferAssessment o.ai now).riskScore)
    (henf : o.enforce ≠ .rateLimited) :
    TraceEv.mitPut ("mitigation:" ++ ip) (mitRecordOf o ip now) 3600
      (!o.mitPutFails) ∈ (SentinelWorkflow.run o ⟨pc, pk, some ip⟩ now).2 := by
  have hb : (o.enforce == EnforceOutcome.rateLimited) = false := by
    cases he : o.enforce <;> simp_all
  have ht : decide (70 < (inferAssessment o.ai now).riskScore) = true :=
    decide_eq_true htrack
  simp only [SentinelWorkflow.run, hb, Bool.and_false, Bool.false_eq_true,
    if_false, ht, Bool.not_true, mitRecordOf, mitRuleId]
  split <;> simp [List.mem_append]

/-- Events other than mitigation writes leave the registry untouched. -/
theorem applyMitPuts_append (a b : List TraceEv)
    (st : List (String × MitRecord)) :
    applyMitPuts (a ++ b) st = applyMitPuts b (applyMitPuts a st) :=
  List.foldl_append _ _ _ _

/-- In a tracked run with a healthy registry store, executing the trace's
mitigation writes is exactly one overwriting put of `mitRecordOf` at the
key `mitigation:<ip>`. -/
theorem applyMitPuts_run (o : WorkflowOracle) (pc pk ip : String)
    (now : Nat) (st : List (String × MitRecord))
    (htrack : 70 < (inferAssessment o.ai now).riskScore)
    (henf : o.enforce ≠ .rateLimited) (hmp : o.mitPutFails = false) :
    applyMitPuts (SentinelWorkflow.run o ⟨pc, pk, some ip⟩ now).2 st =
      kvPut st ("mitigation:" ++ ip) (mitRecordOf o ip now) := by
  have hb : (o.enforce == EnforceOutcome.rateLimited) = false := by
    cases he : o.enforce <;> simp_all
  have ht : decide (70 < (inferAssessment o.ai now).riskScore) = true :=
    decide_eq_true htrack
  simp only [SentinelWorkflow.run, hb, Bool.and_false, Bool.false_eq_true,
    if_false, ht, Bool.not_true, mitRecordOf, mitRuleId, hmp]
  repeat' split
  all_goals simp [applyMitPuts_append, applyMitPuts, kvPut]

/-- C8 (counterexample): an assessment with `riskScore = 70` — which the
claim says should be tracked — produces no mitigation-record write, because
the engine tracks only scores strictly above 70. -/
theorem C8_counterexample :
    ((SentinelWorkflow.run
      ⟨.ok ⟨some "SQLi", some "High", some 70, some "e", some "i", some "m",
        some "flag", none⟩, false, false, false, true, .created (some "rid"),
        false⟩
      ⟨"p", "k", some "9.9.9.9"⟩ 0).2.any TraceEv.isMitPut) = false :=
  rfl

/-- C8 (amended): a finished assessment with risk score strictly above 70
and a known source IP, in a run whose enforcement is not rate-limited,
always gets a mitigation record at `mitigation:<ip>` (1-hour TTL); when the
enforcement step created no external rule, the record carries the sentinel
rule id `tracked-only` (the field is present with that value, not absent). -/
theorem C8_amended (o : WorkflowOracle) (pc pk ip : String) (now : Nat)
    (htrack : 70 < (inferAssessment o.ai now).riskScore)
    (henf : o.enforce ≠ .rateLimited)
    (hnorule : mitRuleId o now = none) :
    TraceEv.mitPut ("mitigation:" ++ ip)
      ⟨"tracked-only", ip, (inferAssessment o.ai now).attackType,
       (inferAssessment o.ai now).riskScore, now, now + 3600000⟩ 3600
      (!o.mitPutFails) ∈ (SentinelWorkflow.run o ⟨pc, pk, some ip⟩ now).2 := by
  have h := run_tracked_mitPut o pc pk ip now htrack henf
  rw [mitRecordOf, hnorule] at h
  exact h

/-- Witness for C8: a flagged verdict at risk 80 (below the auto-block
tier, so no rule is created) is tracked with the `tracked-only` sentinel. -/
theorem C8_witness :
    70 < (inferAssessment (.ok ⟨some "SQLi", some "High", some 80, some "e",
      some "i", some "m", some "flag", none⟩) 11).riskScore ∧
    TraceEv.mitPut ("mitigation:" ++ "9.9.9.9")
      ⟨"tracked-only", "9.9.9.9",
       (inferAssessment (.ok ⟨some "SQLi", some "High", some 80, some "e",
         some "i", some "m", some "flag", none⟩) 11).attackType,
       (inferAssessment (.ok ⟨some "SQLi", some "High", some 80, some "e",
         some "i", some "m", some "flag", none⟩) 11).riskScore, 11,
       11 + 3600000⟩ 3600 true ∈
      (SentinelWorkflow.run
        ⟨.ok ⟨some "SQLi", some "High", some 80, some "e", some "i", some "m",
          some "flag", none⟩, false, false, false, true,
          .created (some "rid"), false⟩
        ⟨"p", "k", some "9.9.9.9"⟩ 11).2 :=
  ⟨by decide,
   C8_amended
     ⟨.ok ⟨some "SQLi", some "High", some 80, some "e", some "i", some "m",
       some "flag", none⟩, false, false, false, true, .created (some "rid"),
       false⟩
     "p" "k" "9.9.9.9" 11 (by decide) (by decide) (by decide)⟩

/-- Looking up the key just written returns the new value. -/
theorem kvGet_kvPut {α : Type} (st : List (String × α)) (k : String) (v : α) :
    kvGet (kvPut st k v) k = some v := by
  unfold kvGet kvPut
  induction st with
  | nil => simp
  | cons e st ih =>
    by_cases he : e.1 = k
    · simp [he, ih]
    · simpa [he] using ih

/-- After a put, the store holds exactly one entry under the key. -/
theorem countKey_kvPut {α : Type} (st : List (String × α)) (k : String)
    (v : α) : countKey (kvPut st k v) k = 1 := by
  unfold countKey kvPut
  induction st with
  | nil => simp
  | cons e st ih =>
    by_cases he : e.1 = k
    · simp [he, ih]
    · simpa [he] using ih

/-- C10: mitigation records are keyed by the source IP alone
(`mitigation:<ip>`): after any two tracked runs from the same source, the
registry holds exactly one record for that IP — the later run's record,
whose TTL window restarts at the later run's time. -/
theorem C10_one_record_per_ip (store : List (String × MitRecord))
    (o1 o2 : WorkflowOracle) (pc1 pk1 pc2 pk2 ip : String) (n1 n2 : Nat)
    (ht1 : 70 < (inferAssessment o1.ai n1).riskScore)
    (he1 : o1.enforce ≠ .rateLimited) (hm1 : o1.mitPutFails = false)
    (ht2 : 70 < (inferAssessment o2.ai n2).riskScore)
    (he2 : o2.enforce ≠ .rateLimited) (hm2 : o2.mitPutFails = false) :
    kvGet (applyMitPuts (SentinelWorkflow.run o2 ⟨pc2, pk2, some ip⟩ n2).2
        (applyMitPuts (SentinelWorkflow.run o1 ⟨pc1, pk1, some ip⟩ n1).2
          store)) ("mitigation:" ++ ip) = some (mitRecordOf o2 ip n2) ∧
    countKey (applyMitPuts (SentinelWorkflow.run o2 ⟨pc2, pk2, some ip⟩ n2).2
        (applyMitPuts (SentinelWorkflow.run o1 ⟨pc1, pk1, some ip⟩ n1).2
          store)) ("mitigation:" ++ ip) = 1 ∧
    (mitRecordOf o2 ip n2).expiresAt = n2 + 3600000 := by
  rw [applyMitPuts_run o1 pc1 pk1 ip n1 store ht1 he1 hm1,
    applyMitPuts_run o2 pc2 pk2 ip n2 _ ht2 he2 hm2]
  exact ⟨kvGet_kvPut _ _ _, countKey_kvPut _ _ _, rfl⟩

/-- Witness for C10: two tracked runs from the same IP at times 0 and 500;
the surviving record is the second one, expiring at 500 + 3600000. -/
theorem C10_witness :
    70 < (inferAssessment (.ok ⟨some "SQLi", some "High", some 80, some "e",
      some "i", some "m", some "flag", none⟩) 0).riskScore ∧
    kvGet (applyMitPuts
        (SentinelWorkflow.run
          ⟨.ok ⟨some "XSS", some "High", some 90, some "e", some "i", some "m",
            some "flag", none⟩, false, false, false, false, .httpError, false⟩
          ⟨"q", "k2", some "8.8.8.8"⟩ 500).2
        (applyMitPuts
          (SentinelWorkflow.run
            ⟨.ok ⟨some "SQLi", some "High", some 80, some "e", some "i",
              some "m", some "flag", none⟩, false, false, false, false,
              .httpError, false⟩
            ⟨"p", "k1", some "8.8.8.8"⟩ 0).2 []))
      ("mitigation:" ++ "8.8.8.8") =
      some (mitRecordOf
        ⟨.ok ⟨some "XSS", some "High", some 90, some "e", some "i", some "m",
          some "flag", none⟩, false, false, false, false, .httpError, false⟩
        "8.8.8.8" 500) :=
  ⟨by decide,
   (C10_one_record_per_ip []
     ⟨.ok ⟨some "SQLi", some "High", some 80, some "e", some "i", some "m",
       some "flag", none⟩, false, false, false, false, .httpError, false⟩
     ⟨.ok ⟨some "XSS", some "High", some 90, some "e", some "i", some "m",
       some "flag", none⟩, false, false, false, false, .httpError, false⟩
     "p" "k1" "q" "k2" "8.8.8.8" 0 500
     (by decide) (by decide) (by decide)
     (by decide) (by decide) (by decide)).1⟩

/-! ## C9 — sweep pagination -/

/-- Per-entry processing touches only the reconciliation counters, never
the pagination totals. -/
theorem processEntry_fixed (now : Nat) (cfc : Bool)
    (rd : String → DelOutcome) (acc : SweepTotals) (e : String × MitRecord) :
    (processEntry now cfc rd acc e).pages = acc.pages ∧
    (processEntry now cfc rd acc e).scanned = acc.scanned ∧
    (processEntry now cfc rd acc e).visited = acc.visited ∧
    (processEntry now cfc rd acc e).finalComplete = acc.finalComplete := by
  unfold processEntry
  repeat' split
  all_goals simp

/-- Folding per-entry processing over a page preserves the pagination
totals. -/
theorem foldl_processEntry_fixed (now : Nat) (cfc : Bool)
    (rd : String → DelOutcome) :
    ∀ (page : List (String × MitRecord)) (acc : SweepTotals),
    ((page.foldl (processEntry now cfc rd) acc).pages = acc.pages ∧
     (page.foldl (processEntry now cfc rd) acc).scanned = acc.scanned ∧
     (page.foldl (processEntry now cfc rd) acc).visited = acc.visited ∧
     (page.foldl (processEntry now cfc rd) acc).finalComplete =
       acc.finalComplete) := by
  intro page
  induction page with
  | nil => intro acc; exact ⟨rfl, rfl, rfl, rfl⟩
  | cons e page ih =>
    intro acc
    have h1 := processEntry_fixed now cfc rd acc e
    have h2 := ih (processEntry now cfc rd acc e)
    simp only [List.foldl_cons]
    exact ⟨h2.1.trans h1.1, h2.2.1.trans h1.2.1, h2.2.2.1.trans h1.2.2.1,
      h2.2.2.2.trans h1.2.2.2⟩

/-- The pagination law of the sweep loop: starting from any accumulator, a
registry listing of `N` entries costs `max 1 ⌈N / 1000⌉` page requests,
scans every entry exactly once in order, and ends with the store reporting
completion. -/
theorem sweepLoop_spec (now : Nat) (cfc : Bool) (rd : String → DelOutcome)
    (remaining : List (String × MitRecord)) (acc : SweepTotals) :
    ((sweepLoop now cfc rd remaining acc).pages =
       acc.pages + max 1 ((remaining.length + 999) / 1000) ∧
     (sweepLoop now cfc rd remaining acc).scanned =
       acc.scanned + remaining.length ∧
     (sweepLoop now cfc rd remaining acc).visited =
       acc.visited ++ remaining.map (fun e => e.1) ∧
     (sweepLoop now cfc rd remaining acc).finalComplete = true) := by
  induction remaining, acc using sweepLoop.induct now cfc rd with
  | case1 remaining acc hle =>
    rw [sweepLoop]
    simp only [hle, if_pos]
    have hf := foldl_processEntry_fixed now cfc rd
      (registryList remaining 1000).1
      { acc with pages := acc.pages + 1,
                 scanned := acc.scanned + (registryList remaining 1000).1.length,
                 visited := acc.visited ++
                   (registryList remaining 1000).1.map (fun e => e.1),
                 finalComplete := (registryList remaining 1000).2 }
    refine ⟨hf.1.trans ?_, hf.2.1.trans ?_, hf.2.2.1.trans ?_,
      hf.2.2.2.trans ?_⟩
    · simp only [registryList]
      have h1 : (remaining.length + 999) / 1000 ≤ 1 := by omega
      omega
    · simp only [registryList, List.length_take]
      omega
    · simp only [registryList]
      rw [List.take_of_length_le hle]
    · simp only [registryList]
      exact decide_eq_true hle
  | case2 remaining acc page acc' hgt ih =>
    rw [sweepLoop]
    simp only [if_neg hgt]
    have hf := foldl_processEntry_fixed now cfc rd
      (registryList remaining 1000).1
      { acc with pages := acc.pages + 1,
                 scanned := acc.scanned + (registryList remaining 1000).1.length,
                 visited := acc.visited ++
                   (registryList remaining 1000).1.map (fun e => e.1),
                 finalComplete := (registryList remaining 1000).2 }
    have hlen : 1000 < remaining.length := by omega
    refine ⟨ih.1.trans ?_, ih.2.1.trans ?_, ih.2.2.1.trans ?_, ih.2.2.2⟩
    · rw [hf.1]
      simp only [registryList, List.length_drop]
      have h1 : 1 ≤ (remaining.length - 1000 + 999) / 1000 := by omega
      have h2 : 1 ≤ (remaining.length + 999) / 1000 := by omega
      rw [Nat.max_eq_right h1, Nat.max_eq_right h2]
      omega
    · rw [hf.2.1]
      simp only [registryList, List.length_take, List.length_drop]
      omega
    · rw [hf.2.2.1]
      simp only [registryList]
      rw [List.append_assoc, ← List.map_append, List.take_append_drop]

/-- C9 (counterexample): sweeping an empty registry still issues one page
request (the do-while loop always lists at least once), whereas `⌈0 / P⌉`
is zero — the claimed "exactly ⌈N/P⌉ requests" fails at `N = 0`. -/
theorem C9_counterexample :
    (scheduledSweep [] 0 false (fun _ => .ok)).pages = 1 ∧
    ((([] : List (String × MitRecord)).length + 999) / 1000 = 0) := by
  constructor
  · have h := (sweepLoop_spec 0 false (fun _ => .ok) [] ⟨0, 0, [], 0, 0, [], true⟩).1
    simpa [scheduledSweep] using h
  · decide

/-- C9 (amended): sweeping a registry of `N` entries with page size 1,000
issues exactly `max 1 ⌈N/1000⌉` paginated list requests (the do-while shape
issues one request even for an empty registry), visits every entry exactly
once in listing order, reports `complete = true` on the final page, and
accumulates a scanned count equal to `N` — in particular 2,450 entries cost
exactly 3 requests with 2,450 scanned.  (The pagination collaborator is
spec-modelled; see `registryList`.) -/
theorem C9_amended (registry : List (String × MitRecord)) (now : Nat)
    (cfc : Bool) (rd : String → DelOutcome) :
    (scheduledSweep registry now cfc rd).pages =
      max 1 ((registry.length + 999) / 1000) ∧
    (scheduledSweep registry now cfc rd).scanned = registry.length ∧
    (scheduledSweep registry now cfc rd).visited =
      registry.map (fun e => e.1) ∧
    (scheduledSweep registry now cfc rd).finalComplete = true := by
  have h := sweepLoop_spec now cfc rd registry ⟨0, 0, [], 0, 0, [], true⟩
  unfold scheduledSweep
  simpa using h

/-! ## C3 — the cache fingerprint -/

/-- Every cache write a workflow run requests uses the key
`assessment:<cacheKey>` built from the run's cache key parameter. -/
theorem run_trace_cacheKeys (o : WorkflowOracle) (p : WorkflowParams)
    (now : Nat) :
    ((SentinelWorkflow.run o p now).2.all
      (fun ev =>
        match ev with
        | TraceEv.cachePut k _ _ _ => k == "assessment:" ++ p.cacheKey
        | _ => true)) = true := by
  simp only [SentinelWorkflow.run]
  repeat' split
  all_goals simp [List.all_append]

/-- C3 (counterexample): the fingerprint is a hash of the RAW payload, not
of the normalized text: the inputs `A` and `a` normalize identically, yet
their cache keys differ, so normalization-equal inputs do not dedupe to the
same entry. -/
theorem C3_counterexample :
    normalize "A" = normalize "a" ∧ cacheKey "A" ≠ cacheKey "a" :=
  ⟨by decide, by decide⟩

/-- C3 (amended): the cache fingerprint is the SHA-256 of the raw payload
with the `-v2-salt` suffix, so the same raw input always yields the same
fingerprint, and every cache write performed by the analyze endpoint is
stored under exactly the key that was looked up
(`assessment:<cacheKey payload>`); but two raw inputs whose normalized
forms coincide may hash to different keys. -/
theorem C3_amended (store : List (String × SecurityAssessment))
    (o : WorkflowOracle) (payload : String) (ip : Option String)
    (now : Nat) :
    ((handleAnalyze store o payload ip now).2.all
      (fun ev =>
        match ev with
        | TraceEv.cachePut k _ _ _ => k == "assessment:" ++ cacheKey payload
        | _ => true)) = true := by
  have hr := run_trace_cacheKeys o ⟨payload, cacheKey payload, ip⟩ now
  simp only [handleAnalyze]
  split
  · rfl
  · split
    next a tr heq => rw [heq] at hr; exact hr
    next e tr heq => rw [heq] at hr; exact hr

/-! ## C4 — idempotence of the normalizer

`normalize` is not idempotent: comment stripping can create a fresh comment
marker (e.g. a block comment sitting between two hyphens leaves `--` behind
for the second pass).  It is idempotent on every input whose normalized
form is free of percent escapes and comment markers; the following lemma
chain establishes that, pass by pass. -/

/-- A percent-free string decodes to itself. -/
theorem decodeOnceGo_of_noPct :
    ∀ (fuel : Nat) (s : List Char), s.contains '%' = false →
      decodeOnceGo fuel s = some s := by
  intro fuel
  induction fuel with
  | zero => intro s h; cases s <;> rfl
  | succ fuel ih =>
    intro s h
    cases s with
    | nil => rfl
    | cons c cs =>
      simp only [List.contains_cons, Bool.or_eq_false_iff, beq_eq_false_iff_ne,
        ne_eq] at h
      have hc : ¬ c = '%' := fun hcc => h.1 hcc.symm
      simp [decodeOnceGo, hc, ih cs h.2]

/-- A percent-free string is already a fixed point of the decode loop. -/
theorem decodeFix_of_noPct (s : List Char) (h : s.contains '%' = false) :
    decodeFix s = s := by
  unfold decodeFix decodeLoop
  rw [show decodeURIOnce s = some s from decodeOnceGo_of_noPct s.length s h]
  simp

/-- `Char.ofNat` at a valid code point round-trips through `toNat`. -/
theorem toNat_ofNat_valid (n : Nat) (h : n.isValidChar) :
    (Char.ofNat n).toNat = n := by
  unfold Char.ofNat
  rw [dif_pos h]
  unfold Char.ofNatAux Char.toNat
  simp [UInt32.toNat, BitVec.toNat_ofNatLt]

/-- On an upper-case ASCII letter, `jsToLower` shifts by 32. -/
theorem jsToLower_of_upper {c : Char} (h : 65 ≤ c.toNat ∧ c.toNat ≤ 90) :
    jsToLower c = Char.ofNat (c.toNat + 32) := by
  unfold jsToLower
  have hc : (decide (65 ≤ c.toNat) && decide (c.toNat ≤ 90)) = true := by
    simp [h.1, h.2]
  simp [hc]

/-- Outside the upper-case ASCII range, `jsToLower` is the identity. -/
theorem jsToLower_of_not_upper {c : Char}
    (h : ¬ (65 ≤ c.toNat ∧ c.toNat ≤ 90)) : jsToLower c = c := by
  unfold jsToLower
  have hc : (decide (65 ≤ c.toNat) && decide (c.toNat ≤ 90)) = false := by
    by_cases h1 : 65 ≤ c.toNat
    · have h2 : ¬ c.toNat ≤ 90 := fun h2 => h ⟨h1, h2⟩
      simp [h2]
    · simp [h1]
  simp [hc]

/-- ASCII lower-casing is idempotent. -/
theorem jsToLower_idem (c : Char) : jsToLower (jsToLower c) = jsToLower c := by
  by_cases h : 65 ≤ c.toNat ∧ c.toNat ≤ 90
  · have hv : (c.toNat + 32).isValidChar := Or.inl (by omega)
    rw [jsToLower_of_upper h]
    apply jsToLower_of_not_upper
    rw [toNat_ofNat_valid _ hv]
    omega
  · rw [jsToLower_of_not_upper h, jsToLower_of_not_upper h]

/-- A character of a lower-cased string is fixed by `jsToLower`. -/
theorem mem_map_jsToLower_fixed {s : List Char} {c : Char}
    (h : c ∈ s.map jsToLower) : jsToLower c = c := by
  obtain ⟨d, _, rfl⟩ := List.mem_map.mp h
  exact jsToLower_idem d

/-- Characters of the whitespace-collapsed string come from the input or
are the space character. -/
theorem mem_collapseWsGo : ∀ (b : Bool) (s : List Char) (c : Char),
    c ∈ collapseWsGo b s → c ∈ s ∨ c = ' ' := by
  intro b s
  induction s generalizing b with
  | nil => intro c h; simp [collapseWsGo] at h
  | cons d cs ih =>
    intro c h
    simp only [collapseWsGo] at h
    split at h
    · split at h
      · rcases ih true c h with h' | h'
        · exact Or.inl (List.mem_cons_of_mem d h')
        · exact Or.inr h'
      · rcases List.mem_cons.mp h with h' | h'
        · exact Or.inr h'
        · rcases ih true c h' with h'' | h''
          · exact Or.inl (List.mem_cons_of_mem d h'')
          · exact Or.inr h''
    · rcases List.mem_cons.mp h with h' | h'
      · exact Or.inl (h' ▸ List.mem_cons_self d cs)
      · rcases ih false c h' with h'' | h''
        · exact Or.inl (List.mem_cons_of_mem d h'')
        · exact Or.inr h''

/-- Characters of the `--`-stripped string come from the input. -/
theorem mem_stripDashGo : ∀ (b : Bool) (s : List Char) (c : Char),
    c ∈ stripDashGo b s → c ∈ s := by
  intro b s
  induction s generalizing b with
  | nil => intro c h; cases b <;> simp [stripDashGo] at h
  | cons d cs ih =>
    intro c h
    cases b with
    | true =>
      simp only [stripDashGo] at h
      split at h
      next hcond =>
        rcases List.mem_cons.mp h with h' | h'
        · exact (h'.trans hcond.symm) ▸ List.mem_cons_self d cs
        · exact List.mem_cons_of_mem d (ih false c h')
      next => exact List.mem_cons_of_mem d (ih true c h)
    | false =>
      simp only [stripDashGo] at h
      split at h
      · exact List.mem_cons_of_mem d (ih true c h)
      · rcases List.mem_cons.mp h with h' | h'
        · exact h' ▸ List.mem_cons_self d cs
        · exact List.mem_cons_of_mem d (ih false c h')

/-- Characters of the `#`-stripped string come from the input. -/
theorem mem_stripHashGo : ∀ (b : Bool) (s : List Char) (c : Char),
    c ∈ stripHashGo b s → c ∈ s := by
  intro b s
  induction s generalizing b with
  | nil => intro c h; cases b <;> simp [stripHashGo] at h
  | cons d cs ih =>
    intro c h
    cases b with
    | true =>
      simp only [stripHashGo] at h
      split at h
      next hcond =>
        rcases List.mem_cons.mp h with h' | h'
        · exact (h'.trans hcond.symm) ▸ List.mem_cons_self d cs
        · exact List.mem_cons_of_mem d (ih false c h')
      next => exact List.mem_cons_of_mem d (ih true c h)
    | false =>
      simp only [stripHashGo] at h
      split at h
      · exact List.mem_cons_of_mem d (ih true c h)
      · rcases List.mem_cons.mp h with h' | h'
        · exact h' ▸ List.mem_cons_self d cs
        · exact List.mem_cons_of_mem d (ih false c h')

/-- Whatever follows the first block-comment close is part of the input. -/
theorem afterClose_subset : ∀ (l r : List Char), afterClose l = some r →
    ∀ c, c ∈ r → c ∈ l := by
  intro l
  induction l with
  | nil => intro r h; simp [afterClose] at h
  | cons d l ih =>
    intro r h c hc
    simp only [afterClose] at h
    split at h
    · injection h with h'
      subst h'
      exact List.mem_cons_of_mem d (List.mem_of_mem_tail hc)
    · exact List.mem_cons_of_mem d (ih r h c hc)

/-- Characters of the block-comment-stripped string come from the input. -/
theorem mem_stripBlockGo : ∀ (fuel : Nat) (s : List Char) (c : Char),
    c ∈ stripBlockGo fuel s → c ∈ s := by
  intro fuel
  induction fuel with
  | zero =>
    intro s c h
    cases s with
    | nil => simpa [stripBlockGo] using h
    | cons d cs => simpa [stripBlockGo] using h
  | succ fuel ih =>
    intro s c h
    cases s with
    | nil => simp [stripBlockGo] at h
    | cons d cs =>
      simp only [stripBlockGo] at h
      split at h
      · split at h
        next rest hac =>
          exact List.mem_cons_of_mem d
            (List.mem_of_mem_tail (afterClose_subset cs.tail rest hac c
              (ih rest c h)))
        next => exact h
      · rcases List.mem_cons.mp h with h' | h'
        · exact h' ▸ List.mem_cons_self d cs
        · exact List.mem_cons_of_mem d (ih cs c h')

/-- Characters survive trailing-whitespace removal only from the input. -/
theorem mem_dropTrailingWs : ∀ (s : List Char) (c : Char),
    c ∈ dropTrailingWs s → c ∈ s := by
  intro s
  induction s with
  | nil => intro c h; simp [dropTrailingWs] at h
  | cons d cs ih =>
    intro c h
    simp only [dropTrailingWs] at h
    split at h
    · simp at h
    · rcases List.mem_cons.mp h with h' | h'
      · exact h' ▸ List.mem_cons_self d cs
      · exact List.mem_cons_of_mem d (ih c h')

/-- Characters of the trimmed string come from the input. -/
theorem mem_jsTrim (s : List Char) (c : Char) (h : c ∈ jsTrim s) : c ∈ s :=
  (List.dropWhile_sublist jsWhitespace).subset (mem_dropTrailingWs _ c h)

/-- Every character of a normalized string is fixed by `jsToLower` (the
passes after the lower-casing step only delete characters or introduce
spaces). -/
theorem normalizeL_lowered (xs : List Char) (c : Char)
    (h : c ∈ normalizeL xs) : jsToLower c = c := by
  unfold normalizeL at h
  have h1 := mem_jsTrim _ c h
  rcases mem_collapseWsGo false _ c h1 with h2 | h2
  · have h3 := List.mem_filter.mp h2
    have h4 := mem_stripHashGo false _ c h3.1
    have h5 := mem_stripBlockGo _ _ c h4
    have h6 := mem_stripDashGo false _ c h5
    rcases mem_collapseWsGo false _ c h6 with h7 | h7
    · exact mem_map_jsToLower_fixed h7
    · rw [h7]; decide
  · rw [h2]; decide

/-- Mapping `jsToLower` over a string of fixed points is the identity. -/
theorem map_jsToLower_eq_self {s : List Char}
    (h : ∀ c ∈ s, jsToLower c = c) : s.map jsToLower = s := by
  induction s with
  | nil => rfl
  | cons c cs ih =>
    simp only [List.map_cons, h c (List.mem_cons_self c cs), List.cons.injEq,
      true_and]
    exact ih (fun d hd => h d (List.mem_cons_of_mem c hd))

/-- Whitespace collapsing emits spaces as the only whitespace. -/
theorem collapseWsGo_wsOnly : ∀ (b : Bool) (s : List Char),
    wsOnlySpace (collapseWsGo b s) = true := by
  intro b s
  induction s generalizing b with
  | nil => cases b <;> rfl
  | cons d cs ih =>
    simp only [collapseWsGo]
    split
    · split
      · exact ih true
      · simp only [wsOnlySpace, List.all_cons]
        exact Bool.and_intro (by decide) (ih true)
    next hws =>
      simp only [wsOnlySpace, List.all_cons]
      exact Bool.and_intro (by simp [hws]) (ih false)

/-- `noDoubleWs` is stable under a non-whitespace head extension, and under
any head extension whose tail starts non-whitespace. -/
theorem noDoubleWs_cons {a : Char} {t : List Char}
    (ha : jsWhitespace a = false ∨ headNonWs t = true)
    (ht : noDoubleWs t = true) : noDoubleWs (a :: t) = true := by
  cases t with
  | nil => rfl
  | cons b t' =>
    simp only [noDoubleWs, Bool.and_eq_true]
    refine ⟨?_, ht⟩
    rcases ha with ha | ha
    · simp [ha]
    · simp only [headNonWs, Bool.not_eq_true'] at ha
      simp [ha]

/-- The tail of a `noDoubleWs` string is `noDoubleWs`. -/
theorem noDoubleWs_tail {a : Char} {t : List Char}
    (h : noDoubleWs (a :: t) = true) : noDoubleWs t = true := by
  cases t with
  | nil => rfl
  | cons b t' =>
    simp only [noDoubleWs, Bool.and_eq_true] at h
    exact h.2

/-- After a whitespace head of a `noDoubleWs` string, the tail starts
non-whitespace. -/
theorem noDoubleWs_headNonWs {a : Char} {t : List Char}
    (ha : jsWhitespace a = true) (h : noDoubleWs (a :: t) = true) :
    headNonWs t = true := by
  cases t with
  | nil => rfl
  | cons b t' =>
    simp only [noDoubleWs, Bool.and_eq_true, Bool.not_eq_true',
      Bool.and_eq_false_iff] at h
    rcases h.1 with h1 | h1
    · rw [ha] at h1; cases h1
    · simp [headNonWs, h1]

/-- Whitespace collapsing yields no adjacent whitespace, and in skipping
mode the result starts non-whitespace. -/
theorem collapseWsGo_noDouble : ∀ (s : List Char),
    noDoubleWs (collapseWsGo false s) = true ∧
    noDoubleWs (collapseWsGo true s) = true ∧
    headNonWs (collapseWsGo true s) = true := by
  intro s
  induction s with
  | nil => exact ⟨rfl, rfl, rfl⟩
  | cons d cs ih =>
    by_cases hws : jsWhitespace d = true
    · simp only [collapseWsGo, hws, if_true, if_pos]
      refine ⟨?_, ih.2.1, ih.2.2⟩
      exact noDoubleWs_cons (Or.inr ih.2.2) ih.2.1
    · simp only [collapseWsGo, hws, Bool.false_eq_true, if_false, if_neg]
      have hn : noDoubleWs (d :: collapseWsGo false cs) = true :=
        noDoubleWs_cons (Or.inl (Bool.not_eq_true _ ▸ hws)) ih.1
      exact ⟨hn, hn, by simp [headNonWs, hws]⟩

/-- A string whose whitespace is only single spaces is a fixed point of
whitespace collapsing. -/
theorem collapseWsGo_fix : ∀ (s : List Char),
    wsOnlySpace s = true → noDoubleWs s = true →
    (collapseWsGo false s = s ∧
     (headNonWs s = true → collapseWsGo true s = s)) := by
  intro s
  induction s with
  | nil => exact fun _ _ => ⟨rfl, fun _ => rfl⟩
  | cons d cs ih =>
    intro hw hn
    have hwcs : wsOnlySpace cs = true := by
      simp only [wsOnlySpace, List.all_cons, Bool.and_eq_true] at hw
      exact hw.2
    have hncs : noDoubleWs cs = true := noDoubleWs_tail hn
    by_cases hws : jsWhitespace d = true
    · have hd : d = ' ' := by
        simp only [wsOnlySpace, List.all_cons, Bool.and_eq_true] at hw
        rcases Bool.or_eq_true _ _ |>.mp hw.1 with h' | h'
        · rw [hws] at h'; cases h'
        · exact eq_of_beq h'
      have hhead := noDoubleWs_headNonWs hws hn
      constructor
      · simp only [collapseWsGo, hws, if_true, if_pos, Bool.false_eq_true,
          if_false]
        rw [(ih hwcs hncs).2 hhead, hd]
      · intro habs
        simp only [headNonWs, hws, Bool.not_true] at habs
        cases habs
    · have hfix := (ih hwcs hncs).1
      constructor
      · simp only [collapseWsGo, hws, Bool.false_eq_true, if_false, if_neg]
        rw [hfix]
      · intro _
        simp only [collapseWsGo, hws, Bool.false_eq_true, if_false, if_neg]
        rw [hfix]

/-- Dropping leading whitespace leaves a non-whitespace head. -/
theorem headNonWs_dropWhile : ∀ (s : List Char),
    headNonWs (s.dropWhile jsWhitespace) = true := by
  intro s
  induction s with
  | nil => rfl
  | cons d cs ih =>
    by_cases hws : jsWhitespace d = true
    · rw [List.dropWhile_cons_of_pos hws]; exact ih
    · rw [List.dropWhile_cons_of_neg (by simp [hws])]
      simp [headNonWs, hws]

/-- A string with non-whitespace head is untouched by the leading drop. -/
theorem dropWhile_of_headNonWs {s : List Char} (h : headNonWs s = true) :
    s.dropWhile jsWhitespace = s := by
  cases s with
  | nil => rfl
  | cons d cs =>
    simp only [headNonWs, Bool.not_eq_true'] at h
    rw [List.dropWhile_cons_of_neg (by simp [h])]

/-- Trailing-whitespace removal keeps a non-whitespace head. -/
theorem headNonWs_dropTrailingWs {s : List Char} (h : headNonWs s = true) :
    headNonWs (dropTrailingWs s) = true := by
  cases s with
  | nil => rfl
  | cons d cs =>
    simp only [dropTrailingWs]
    split
    · rfl
    · exact h

/-- Trailing-whitespace removal is idempotent. -/
theorem dropTrailingWs_idem : ∀ (s : List Char),
    dropTrailingWs (dropTrailingWs s) = dropTrailingWs s := by
  intro s
  induction s with
  | nil => rfl
  | cons d cs ih =>
    simp only [dropTrailingWs]
    split
    · rfl
    next hcond =>
      simp only [dropTrailingWs, ih]
      split
      next hcond2 =>
        exfalso
        exact hcond ⟨hcond2.1, hcond2.2⟩
      next => rfl

/-- `String.prototype.trim` is idempotent. -/
theorem jsTrim_idem (s : List Char) : jsTrim (jsTrim s) = jsTrim s := by
  unfold jsTrim
  rw [dropWhile_of_headNonWs
    (headNonWs_dropTrailingWs (headNonWs_dropWhile s)),
    dropTrailingWs_idem]

/-- The trailing drop returns the empty list or keeps the head. -/
theorem dropTrailingWs_head : ∀ (s : List Char),
    dropTrailingWs s = [] ∨ (dropTrailingWs s).head? = s.head? := by
  intro s
  cases s with
  | nil => exact Or.inl rfl
  | cons d cs =>
    simp only [dropTrailingWs]
    split
    · exact Or.inl rfl
    · exact Or.inr rfl

/-- Dropping leading characters preserves `noDoubleWs`. -/
theorem noDoubleWs_dropWhile {s : List Char} (p : Char → Bool)
    (h : noDoubleWs s = true) : noDoubleWs (s.dropWhile p) = true := by
  induction s with
  | nil => exact h
  | cons d cs ih =>
    by_cases hp : p d = true
    · rw [List.dropWhile_cons_of_pos hp]
      exact ih (noDoubleWs_tail h)
    · rw [List.dropWhile_cons_of_neg (by simp [hp])]
      exact h

/-- Trailing-whitespace removal preserves `noDoubleWs`. -/
theorem noDoubleWs_dropTrailingWs : ∀ (s : List Char),
    noDoubleWs s = true → noDoubleWs (dropTrailingWs s) = true := by
  intro s
  induction s with
  | nil => intro h; exact h
  | cons d cs ih =>
    intro h
    simp only [dropTrailingWs]
    split
    · rfl
    · have htail := ih (noDoubleWs_tail h)
      rcases dropTrailingWs_head cs with hsh | hsh
      · rw [hsh]; rfl
      · cases hdt : dropTrailingWs cs with
        | nil => rfl
        | cons b t' =>
          rw [hdt] at hsh htail
          cases cs with
          | nil => simp at hsh
          | cons b0 cs' =>
            simp only [List.head?] at hsh
            injection hsh with hb
            subst hb
            simp only [noDoubleWs, Bool.and_eq_true] at h ⊢
            exact ⟨h.1, htail⟩

/-- `wsOnlySpace` restricted along any character-subset map. -/
theorem wsOnlySpace_of_subset {s t : List Char}
    (hsub : ∀ c, c ∈ t → c ∈ s) (h : wsOnlySpace s = true) :
    wsOnlySpace t = true := by
  simp only [wsOnlySpace, List.all_eq_true] at h ⊢
  exact fun c hc => h c (hsub c hc)

/-- A string without `--` is untouched by line-comment stripping. -/
theorem stripDashGo_noop : ∀ (s : List Char),
    csHasSub ['-', '-'] s = false → stripDashGo false s = s := by
  intro s
  induction s with
  | nil => intro h; rfl
  | cons d cs ih =>
    intro h
    simp only [csHasSub, anyPos, Bool.or_eq_false_iff] at h
    simp only [stripDashGo]
    rw [if_neg ?hc, ih h.2]
    case hc =>
      rintro ⟨hd, hh⟩
      subst hd
      cases cs with
      | nil => simp at hh
      | cons e cs' =>
        simp only [List.head?, Option.some.injEq] at hh
        subst hh
        simp [csStarts] at h

/-- A string without `#` is untouched by hash-comment stripping. -/
theorem stripHashGo_noop : ∀ (s : List Char),
    s.contains '#' = false → stripHashGo false s = s := by
  intro s
  induction s with
  | nil => intro h; rfl
  | cons d cs ih =>
    intro h
    simp only [List.contains_cons, Bool.or_eq_false_iff,
      beq_eq_false_iff_ne, ne_eq] at h
    simp only [stripHashGo]
    rw [if_neg (fun hd => h.1 hd.symm), ih h.2]

/-- A string without `/*` is untouched by block-comment stripping. -/
theorem stripBlockGo_noop : ∀ (fuel : Nat) (s : List Char),
    csHasSub ['/', '*'] s = false → stripBlockGo fuel s = s := by
  intro fuel
  induction fuel with
  | zero => intro s h; cases s <;> rfl
  | succ fuel ih =>
    intro s h
    cases s with
    | nil => rfl
    | cons d cs =>
      simp only [csHasSub, anyPos, Bool.or_eq_false_iff] at h
      simp only [stripBlockGo]
      rw [if_neg ?hc, ih cs h.2]
      case hc =>
        rintro ⟨hd, hh⟩
        subst hd
        cases cs with
        | nil => simp at hh
        | cons e cs' =>
          simp only [List.head?, Option.some.injEq] at hh
          subst hh
          simp [csStarts] at h

/-- The normalized string contains no null byte. -/
theorem normalizeL_no_null (xs : List Char) :
    ('\x00' ∈ normalizeL xs) → False := by
  intro h
  unfold normalizeL at h
  have h1 := mem_jsTrim _ _ h
  rcases mem_collapseWsGo false _ _ h1 with h2 | h2
  · have h3 := List.mem_filter.mp h2
    simp at h3
  · exact absurd h2 (by decide)

/-- The null-byte filter is the identity on null-free strings. -/
theorem removeNulls_noop {s : List Char} (h : ('\x00' ∈ s) → False) :
    removeNulls s = s := by
  unfold removeNulls
  apply List.filter_eq_self.mpr
  intro a ha
  simp only [ne_eq, decide_eq_true_eq]
  exact fun he => h (he ▸ ha)

/-- The normalized string's whitespace is only single spaces. -/
theorem normalizeL_wsOnly (xs : List Char) :
    wsOnlySpace (normalizeL xs) = true := by
  unfold normalizeL
  exact wsOnlySpace_of_subset (mem_jsTrim _) (collapseWsGo_wsOnly false _)

/-- The normalized string has no adjacent whitespace. -/
theorem normalizeL_noDouble (xs : List Char) :
    noDoubleWs (normalizeL xs) = true := by
  unfold normalizeL jsTrim
  exact noDoubleWs_dropTrailingWs _
    (noDoubleWs_dropWhile _ (collapseWsGo_noDouble _).1)

/-- The normalized string is already trimmed. -/
theorem jsTrim_normalizeL (xs : List Char) :
    jsTrim (normalizeL xs) = normalizeL xs := by
  unfold normalizeL
  exact jsTrim_idem _

/-- C4 (counterexample): `normalize` is not idempotent.  On the input
made of a hyphen, an empty block comment, a hyphen and `x`, stripping the
block comment glues the two hyphens into a fresh `--` marker, which only
the second pass strips: the first pass yields `--x`, the second the empty
string. -/
theorem C4_counterexample :
    normalize (normalize "-/**/-x") ≠ normalize "-/**/-x" := by decide

/-- C4 (amended): `normalize` is deterministic (it is a pure function of
its input), and it is idempotent on every input whose normalized form
contains no percent sign and no comment marker (`--`, `/*`, `#`); it is
not idempotent in general, because comment stripping can create a new
comment marker or a new percent escape for the next pass. -/
theorem C4_amended (x : String)
    (h1 : (normalize x).data.contains '%' = false)
    (h2 : csHasSub ['-', '-'] (normalize x).data = false)
    (h3 : csHasSub ['/', '*'] (normalize x).data = false)
    (h4 : (normalize x).data.contains '#' = false) :
    normalize (normalize x) = normalize x := by
  have hlow : ∀ c ∈ normalizeL x.data, jsToLower c = c :=
    fun c hc => normalizeL_lowered x.data c hc
  have hw := normalizeL_wsOnly x.data
  have hnd := normalizeL_noDouble x.data
  have e1 : decodeFix (normalizeL x.data) = normalizeL x.data :=
    decodeFix_of_noPct _ h1
  have e2 : (normalizeL x.data).map jsToLower = normalizeL x.data :=
    map_jsToLower_eq_self hlow
  have e3 : collapseWs (normalizeL x.data) = normalizeL x.data :=
    (collapseWsGo_fix _ hw hnd).1
  have e4 : stripDashComments (normalizeL x.data) = normalizeL x.data :=
    stripDashGo_noop _ h2
  have e5 : stripBlockComments (normalizeL x.data) = normalizeL x.data :=
    stripBlockGo_noop _ _ h3
  have e6 : stripHashComments (normalizeL x.data) = normalizeL x.data :=
    stripHashGo_noop _ h4
  have e7 : removeNulls (normalizeL x.data) = normalizeL x.data :=
    removeNulls_noop (normalizeL_no_null x.data)
  have key : normalizeL (normalizeL x.data) = normalizeL x.data := by
    calc normalizeL (normalizeL x.data)
        = jsTrim (collapseWs (removeNulls (stripHashComments
            (stripBlockComments (stripDashComments (collapseWs
              ((decodeFix (normalizeL x.data)).map jsToLower))))))) := rfl
      _ = jsTrim (normalizeL x.data) := by rw [e1, e2, e3, e4, e5, e6, e7, e3]
      _ = normalizeL x.data := jsTrim_normalizeL x.data
  show String.mk (normalizeL (normalizeL x.data)) = String.mk (normalizeL x.data)
  rw [key]

/-- Witness for C4's amended idempotence on a marker-free input. -/
theorem C4_witness :
    ((normalize "SELECT * FROM users").data.contains '%' = false ∧
     csHasSub ['-', '-'] (normalize "SELECT * FROM users").data = false ∧
     csHasSub ['/', '*'] (normalize "SELECT * FROM users").data = false ∧
     (normalize "SELECT * FROM users").data.contains '#' = false) ∧
    normalize (normalize "SELECT * FROM users") =
      normalize "SELECT * FROM users" :=
  ⟨⟨by decide, by decide, by decide, by decide⟩,
   C4_amended "SELECT * FROM users" (by decide) (by decide) (by decide)
     (by decide)⟩

end Sentinel
